import Mathlib

/-!
Verification of the `cookie-state` repository (`src/useCookieState.ts`).

The development shallowly embeds the hook's logic:

* `JsValue` models the JavaScript values the hook can be asked to store.
  JSON numbers are modelled as exact integers (`Int`); IEEE-754 formatting
  and fractional/exponent number syntax are outside the embedding.  A value
  containing a circular reference cannot be built in a well-founded
  inductive, so the dedicated constructor `JsValue.circular` marks such a
  value; `JSON.stringify` throws a `TypeError` exactly on it, per the
  ECMAScript specification.
* `stringify` models `JSON.stringify`, `jsonParse` models `JSON.parse`,
  `pctEncode` models `encodeURIComponent` and `pctDecode` models
  `decodeURIComponent` (UTF-8 percent escaping, byte values written with
  `Nat` division/remainder arithmetic).
* `getCookie`, `setCookie` and `deleteCookie` model the cookie adapter
  functions, with `document.cookie` represented as `Option String`
  (`none` models `typeof document === "undefined"`).
* `getInitialValueE`, `initializeE`, `getValueE`, `setCookieValueE` and
  `deleteCookieValueE` model the four public operations of the hook.
  Each is an `Except String` computation in which `Except.error` marks an
  exception propagating out of the operation to the caller; the `try`
  block of the source is the `body` value and the `catch` clause is the
  surrounding `match`.
-/

namespace CookieState

/- JavaScript values as seen by the hook.  `undef` is `undefined`,
`func` a function value, `symbol` a symbol, and `circular` a value
containing a circular reference (not constructible as a tree, hence a
marker constructor; stringifying it throws, as in ECMAScript). -/
mutual

inductive JsValue where
  | undef
  | jsNull
  | bool (b : Bool)
  | num (n : Int)
  | str (s : String)
  | func
  | symbol
  | circular
  | arr (elems : JsArr)
  | obj (fields : JsObj)
  deriving DecidableEq

inductive JsArr where
  | nil
  | cons (v : JsValue) (rest : JsArr)
  deriving DecidableEq

inductive JsObj where
  | nil
  | cons (key : String) (v : JsValue) (rest : JsObj)
  deriving DecidableEq

end

/-- JavaScript truthiness of a value (`if (v)`): `undefined`, `null`,
`false`, `0` and the empty string are falsy, everything else truthy. -/
def truthy : JsValue → Bool
  | .undef => false
  | .jsNull => false
  | .bool b => b
  | .num n => decide (n ≠ 0)
  | .str s => decide (s ≠ (""))
  | _ => true

/-- The decimal digit character for `n < 10`. -/
def digitChar (n : Nat) : Char := Char.ofNat (48 + n)

/-- Decimal digits of `n`, most significant first; `fuel` bounds the
recursion (any `fuel > n` is enough). -/
def natDigitsAux : Nat → Nat → List Char
  | 0, _ => []
  | fuel + 1, n =>
    if n < 10 then [digitChar n]
    else natDigitsAux fuel (n / 10) ++ [digitChar (n % 10)]

/-- Decimal digits of `n`, most significant first. -/
def natDigits (n : Nat) : List Char := natDigitsAux (n + 1) n

/-- Decimal rendering of an integer, as emitted by `JSON.stringify` for
(safe-range) integral numbers. -/
def intChars (n : Int) : List Char :=
  if n < 0 then '-' :: natDigits n.natAbs else natDigits n.natAbs

/-- Lower-case hexadecimal digit for `k < 16` (as in `\u00xx` escapes). -/
def hexDigitLower (k : Nat) : Char :=
  if k < 10 then digitChar k else Char.ofNat (87 + k)

/-- Upper-case hexadecimal digit for `k < 16` (as emitted by
`encodeURIComponent`). -/
def hexDigitUpper (k : Nat) : Char :=
  if k < 10 then digitChar k else Char.ofNat (55 + k)

/-- JSON escaping of one character, as performed by `JSON.stringify` on
string values: quote and backslash get two-character escapes, the five
named control characters get their short escapes, the remaining control
characters become `\u00xx`, and every other character is kept. -/
def escapeChar (c : Char) : List Char :=
  if c = '"' then ['\\', '"']
  else if c = '\\' then ['\\', '\\']
  else if c = Char.ofNat 8 then ['\\', 'b']
  else if c = Char.ofNat 9 then ['\\', 't']
  else if c = Char.ofNat 10 then ['\\', 'n']
  else if c = Char.ofNat 12 then ['\\', 'f']
  else if c = Char.ofNat 13 then ['\\', 'r']
  else if c.toNat < 32 then
    ['\\', 'u', '0', '0', hexDigitLower (c.toNat / 16), hexDigitLower (c.toNat % 16)]
  else [c]

/-- JSON escaping of a character list. -/
def escapeList : List Char → List Char
  | [] => []
  | c :: rest => escapeChar c ++ escapeList rest

/-- A JSON string literal: quote, escaped content, quote. -/
def quoteChars (s : List Char) : List Char :=
  '"' :: (escapeList s ++ ['"'])

/-- Comma-join a list of rendered pieces (no spaces, as
`JSON.stringify` emits with no indent argument). -/
def joinComma : List (List Char) → List Char
  | [] => []
  | [x] => x
  | x :: xs => x ++ ',' :: joinComma xs

/-- The characters of the text `null`. -/
def nullChars : List Char := ['n', 'u', 'l', 'l']

/- `JSON.stringify`.  The result `Except.error` models the thrown
`TypeError` on circular structures; `Except.ok none` models the
`undefined` result (top-level `undefined`, function or symbol);
`Except.ok (some s)` is the produced JSON text.  Array entries whose
value stringifies to `undefined` are rendered as `null`; object
properties whose value stringifies to `undefined` are omitted. -/
mutual

def stringify : JsValue → Except String (Option (List Char))
  | .undef => .ok none
  | .func => .ok none
  | .symbol => .ok none
  | .circular => .error ("Converting circular structure to JSON")
  | .jsNull => .ok (some nullChars)
  | .bool true => .ok (some ['t', 'r', 'u', 'e'])
  | .bool false => .ok (some ['f', 'a', 'l', 's', 'e'])
  | .num n => .ok (some (intChars n))
  | .str s => .ok (some (quoteChars s.data))
  | .arr elems =>
    match stringifyItems elems with
    | .error e => .error e
    | .ok parts => .ok (some ('[' :: (joinComma parts ++ [']'])))
  | .obj fields =>
    match stringifyFields fields with
    | .error e => .error e
    | .ok parts => .ok (some (Char.ofNat 123 :: (joinComma parts ++ [Char.ofNat 125])))

def stringifyItems : JsArr → Except String (List (List Char))
  | .nil => .ok []
  | .cons v rest =>
    match stringify v with
    | .error e => .error e
    | .ok sv =>
      match stringifyItems rest with
      | .error e => .error e
      | .ok tail => .ok ((sv.getD nullChars) :: tail)

def stringifyFields : JsObj → Except String (List (List Char))
  | .nil => .ok []
  | .cons k v rest =>
    match stringify v with
    | .error e => .error e
    | .ok sv =>
      match stringifyFields rest with
      | .error e => .error e
      | .ok tail =>
        match sv with
        | none => .ok tail
        | some sv => .ok ((quoteChars k.data ++ ':' :: sv) :: tail)

end

/- A value is JSON-representable when it contains no `undefined`,
function, symbol or circular reference. -/
mutual

def isJsonRep : JsValue → Bool
  | .undef => false
  | .func => false
  | .symbol => false
  | .circular => false
  | .jsNull => true
  | .bool _ => true
  | .num _ => true
  | .str _ => true
  | .arr elems => isJsonRepItems elems
  | .obj fields => isJsonRepFields fields

def isJsonRepItems : JsArr → Bool
  | .nil => true
  | .cons v rest => isJsonRep v && isJsonRepItems rest

def isJsonRepFields : JsObj → Bool
  | .nil => true
  | .cons _ v rest => isJsonRep v && isJsonRepFields rest

end

/- A value contains a circular reference marker. -/
mutual

def hasCirc : JsValue → Bool
  | .circular => true
  | .arr elems => hasCircItems elems
  | .obj fields => hasCircFields fields
  | _ => false

def hasCircItems : JsArr → Bool
  | .nil => false
  | .cons v rest => hasCirc v || hasCircItems rest

def hasCircFields : JsObj → Bool
  | .nil => false
  | .cons _ v rest => hasCirc v || hasCircFields rest

end

/- The JSON text `JSON.stringify` produces on a representable value
(pure counterpart of `stringify`, used to state the round-trip law). -/
mutual

def render : JsValue → List Char
  | .jsNull => nullChars
  | .bool true => ['t', 'r', 'u', 'e']
  | .bool false => ['f', 'a', 'l', 's', 'e']
  | .num n => intChars n
  | .str s => quoteChars s.data
  | .arr elems => '[' :: (joinComma (renderItems elems) ++ [']'])
  | .obj fields => Char.ofNat 123 :: (joinComma (renderFields fields) ++ [Char.ofNat 125])
  | _ => []

def renderItems : JsArr → List (List Char)
  | .nil => []
  | .cons v rest => render v :: renderItems rest

def renderFields : JsObj → List (List Char)
  | .nil => []
  | .cons k v rest => (quoteChars k.data ++ ':' :: render v) :: renderFields rest

end

/-- JSON whitespace (the four characters of the JSON grammar). -/
def isWsChar (c : Char) : Bool :=
  c = ' ' || c = Char.ofNat 9 || c = Char.ofNat 10 || c = Char.ofNat 13

/-- Skip JSON whitespace. -/
def skipWs : List Char → List Char
  | [] => []
  | c :: rest => if isWsChar c then skipWs rest else c :: rest

/-- A decimal digit character. -/
def isDigitChar (c : Char) : Bool := 48 ≤ c.toNat && c.toNat ≤ 57

/-- Value of a hexadecimal digit, either case (as accepted by
`JSON.parse` in `\uXXXX` and by `decodeURIComponent` in `%XX`). -/
def hexVal (c : Char) : Option Nat :=
  if 48 ≤ c.toNat && c.toNat ≤ 57 then some (c.toNat - 48)
  else if 97 ≤ c.toNat && c.toNat ≤ 102 then some (c.toNat - 87)
  else if 65 ≤ c.toNat && c.toNat ≤ 70 then some (c.toNat - 55)
  else none

/-- Prepend a character to the first component of a parser result. -/
def consFst (c : Char) : Option (List Char × List Char) → Option (List Char × List Char)
  | none => none
  | some (s, r) => some (c :: s, r)

/- Body of a JSON string literal, after the opening quote: returns the
content characters and the input remaining after the closing quote.
Unescaped control characters are rejected, the short escapes and
`\uXXXX` are decoded, and a high/low surrogate escape pair is combined
into one scalar.  A lone surrogate escape yields U+FFFD here: the
JavaScript parser keeps the lone surrogate code unit, which a Lean
`Char` (a Unicode scalar value) cannot represent.  The fuel only bounds
the recursion; every step consumes at least one character, so any
`fuel` exceeding the input length is enough. -/
def parseStringBody : Nat → List Char → Option (List Char × List Char)
  | 0, _ => none
  | fuel + 1, input =>
    match input with
    | [] => none
    | c :: rest =>
      if c = '"' then some ([], rest)
      else if c = '\\' then
        match rest with
        | [] => none
        | e :: rest2 =>
          if e = '"' then consFst '"' (parseStringBody fuel rest2)
          else if e = '\\' then consFst '\\' (parseStringBody fuel rest2)
          else if e = '/' then consFst '/' (parseStringBody fuel rest2)
          else if e = 'b' then consFst (Char.ofNat 8) (parseStringBody fuel rest2)
          else if e = 'f' then consFst (Char.ofNat 12) (parseStringBody fuel rest2)
          else if e = 'n' then consFst (Char.ofNat 10) (parseStringBody fuel rest2)
          else if e = 'r' then consFst (Char.ofNat 13) (parseStringBody fuel rest2)
          else if e = 't' then consFst (Char.ofNat 9) (parseStringBody fuel rest2)
          else if e = 'u' then
            match rest2 with
            | h1 :: h2 :: h3 :: h4 :: rest3 =>
              match hexVal h1, hexVal h2, hexVal h3, hexVal h4 with
              | some a, some b, some c2, some d =>
                let n := a * 4096 + b * 256 + c2 * 16 + d
                if 55296 ≤ n && n < 56320 then
                  match rest3 with
                  | '\\' :: 'u' :: g1 :: g2 :: g3 :: g4 :: rest4 =>
                    match hexVal g1, hexVal g2, hexVal g3, hexVal g4 with
                    | some a2, some b2, some c3, some d2 =>
                      let m := a2 * 4096 + b2 * 256 + c3 * 16 + d2
                      if 56320 ≤ m && m < 57344 then
                        consFst (Char.ofNat (65536 + (n - 55296) * 1024 + (m - 56320)))
                          (parseStringBody fuel rest4)
                      else consFst (Char.ofNat 65533)
                        (parseStringBody fuel ('\\' :: 'u' :: g1 :: g2 :: g3 :: g4 :: rest4))
                    | _, _, _, _ => consFst (Char.ofNat 65533)
                        (parseStringBody fuel ('\\' :: 'u' :: g1 :: g2 :: g3 :: g4 :: rest4))
                  | _ => consFst (Char.ofNat 65533) (parseStringBody fuel rest3)
                else if 56320 ≤ n && n < 57344 then
                  consFst (Char.ofNat 65533) (parseStringBody fuel rest3)
                else consFst (Char.ofNat n) (parseStringBody fuel rest3)
              | _, _, _, _ => none
            | _ => none
          else none
      else if c.toNat < 32 then none
      else consFst c (parseStringBody fuel rest)

/-- Maximal run of decimal digits at the head of the input. -/
def readDigits : List Char → List Char × List Char
  | [] => ([], [])
  | c :: rest =>
    if isDigitChar c then
      let (ds, r) := readDigits rest
      (c :: ds, r)
    else ([], c :: rest)

/-- Accumulate the numeric value of a digit run. -/
def digitsValAux (acc : Nat) : List Char → Nat
  | [] => acc
  | c :: rest => digitsValAux (acc * 10 + (c.toNat - 48)) rest

/- Number token, positioned at its first digit (`neg` records a leading
minus already consumed).  Leading zeros are rejected, as in the JSON
grammar.  Fractional and exponent syntax is outside the integer model
of this embedding. -/
def parseNumTail (neg : Bool) (input : List Char) : Option (JsValue × List Char) :=
  match readDigits input with
  | ([], _) => none
  | (d :: ds, rest) =>
    if d = '0' && decide (ds ≠ []) then none
    else
      let n : Int := Int.ofNat (digitsValAux 0 (d :: ds))
      some (.num (if neg then -n else n), rest)

/-- Match an expected literal character sequence, returning the rest. -/
def dropLit : List Char → List Char → Option (List Char)
  | [], rest => some rest
  | c :: cs, d :: rest => if c = d then dropLit cs rest else none
  | _ :: _, [] => none

/- `JSON.parse`, as a fuelled recursive-descent reader of the JSON
grammar (objects are read into their ordered field list).  The fuel
only bounds the recursion; `jsonParse` supplies more than any input can
consume. -/
mutual

def parseVal : Nat → List Char → Option (JsValue × List Char)
  | 0, _ => none
  | fuel + 1, input =>
    match input with
    | [] => none
    | c :: rest =>
      if c = 'n' then
        match dropLit ['u', 'l', 'l'] rest with
        | some r => some (.jsNull, r)
        | none => none
      else if c = 't' then
        match dropLit ['r', 'u', 'e'] rest with
        | some r => some (.bool true, r)
        | none => none
      else if c = 'f' then
        match dropLit ['a', 'l', 's', 'e'] rest with
        | some r => some (.bool false, r)
        | none => none
      else if c = '"' then
        match parseStringBody (rest.length + 1) rest with
        | some (s, r) => some (.str (String.mk s), r)
        | none => none
      else if c = '-' then parseNumTail true rest
      else if isDigitChar c then parseNumTail false (c :: rest)
      else if c = '[' then
        match skipWs rest with
        | [] => none
        | d :: r2 =>
          if d = ']' then some (.arr .nil, r2)
          else
            match parseItems fuel (d :: r2) with
            | some (xs, r3) => some (.arr xs, r3)
            | none => none
      else if c = Char.ofNat 123 then
        match skipWs rest with
        | d :: r2 =>
          if d = Char.ofNat 125 then some (.obj .nil, r2)
          else
            match parseFields fuel (d :: r2) with
            | some (fs, r3) => some (.obj fs, r3)
            | none => none
        | [] => none
      else none

def parseItems : Nat → List Char → Option (JsArr × List Char)
  | 0, _ => none
  | fuel + 1, input =>
    match parseVal fuel (skipWs input) with
    | none => none
    | some (v, r) =>
      match skipWs r with
      | ']' :: r2 => some (.cons v .nil, r2)
      | ',' :: r2 =>
        match parseItems fuel r2 with
        | some (vs, r3) => some (.cons v vs, r3)
        | none => none
      | _ => none

def parseFields : Nat → List Char → Option (JsObj × List Char)
  | 0, _ => none
  | fuel + 1, input =>
    match skipWs input with
    | [] => none
    | c :: r1 =>
      if c = '"' then
        match parseStringBody (r1.length + 1) r1 with
        | none => none
        | some (k, r2) =>
          match skipWs r2 with
          | ':' :: r3 =>
            match parseVal fuel (skipWs r3) with
            | none => none
            | some (v, r4) =>
              match skipWs r4 with
              | d :: r5 =>
                if d = Char.ofNat 125 then some (.cons (String.mk k) v .nil, r5)
                else if d = ',' then
                  match parseFields fuel r5 with
                  | some (fs, r6) => some (.cons (String.mk k) v fs, r6)
                  | none => none
                else none
              | [] => none
          | _ => none
      else none

end

/-- `JSON.parse` on a whole string: a single JSON value surrounded by
optional whitespace. -/
def jsonParse (s : String) : Option JsValue :=
  let chars := skipWs s.data
  match parseVal (chars.length + 1) chars with
  | some (v, rest) => if skipWs rest = [] then some v else none
  | none => none

/-- UTF-8 bytes of a Unicode scalar value, written with division and
remainder arithmetic. -/
def utf8Bytes (n : Nat) : List Nat :=
  if n < 128 then [n]
  else if n < 2048 then [192 + n / 64, 128 + n % 64]
  else if n < 65536 then [224 + n / 4096, 128 + (n / 64) % 64, 128 + n % 64]
  else [240 + n / 262144, 128 + (n / 4096) % 64, 128 + (n / 64) % 64, 128 + n % 64]

/-- Percent escape of one byte, upper-case hex, as `encodeURIComponent`
emits. -/
def pctByte (b : Nat) : List Char :=
  ['%', hexDigitUpper (b / 16), hexDigitUpper (b % 16)]

/-- Percent escapes of a byte list. -/
def pctBytes : List Nat → List Char
  | [] => []
  | b :: bs => pctByte b ++ pctBytes bs

/-- The characters `encodeURIComponent` leaves unescaped: ASCII
letters, digits, and `- _ . ! ~ * ' ( )`. -/
def isUnreserved (c : Char) : Bool :=
  (65 ≤ c.toNat && c.toNat ≤ 90) || (97 ≤ c.toNat && c.toNat ≤ 122) ||
  (48 ≤ c.toNat && c.toNat ≤ 57) ||
  c = '-' || c = '_' || c = '.' || c = '!' || c = Char.ofNat 126 ||
  c = '*' || c = Char.ofNat 39 || c = '(' || c = ')'

/-- `encodeURIComponent` on one character. -/
def pctEncodeChar (c : Char) : List Char :=
  if isUnreserved c then [c] else pctBytes (utf8Bytes c.toNat)

/-- `encodeURIComponent`. -/
def pctEncode : List Char → List Char
  | [] => []
  | c :: rest => pctEncodeChar c ++ pctEncode rest

/-- Read two hex digits as a byte value. -/
def hexByteVal (h l : Char) : Option Nat :=
  match hexVal h, hexVal l with
  | some a, some b => some (a * 16 + b)
  | _, _ => none

/-- Read two hex digits as a UTF-8 continuation byte (`0x80..0xBF`),
returning its six payload bits. -/
def contByte (h l : Char) : Option Nat :=
  match hexByteVal h l with
  | some v => if 128 ≤ v && v < 192 then some (v - 128) else none
  | none => none

/-- Prepend a decoded character to a decode result. -/
def consDecoded (c : Char) : Option (List Char) → Option (List Char)
  | some out => some (c :: out)
  | none => none

/-- Read one percent-escaped UTF-8 continuation byte (`%XX` with the
byte in `0x80..0xBF`), returning its six payload bits and the rest. -/
def readContByte : List Char → Option (Nat × List Char)
  | '%' :: h :: l :: rest =>
    match contByte h l with
    | some c2 => some (c2, rest)
    | none => none
  | _ => none

/- Worker of `decodeURIComponent`: percent escapes are decoded to bytes
and the byte sequences decoded as UTF-8; `none` models the thrown
`URIError` on a malformed escape, a stray or missing continuation byte,
an overlong encoding, a surrogate code point or an out-of-range code
point.  Characters other than `%` pass through unchanged.  The fuel
only bounds the recursion (each step consumes at least one character). -/
def pctDecodeAux : Nat → List Char → Option (List Char)
  | 0, _ => none
  | _ + 1, [] => some []
  | fuel + 1, c :: rest =>
    if c = '%' then
      match rest with
      | h :: l :: rest1 =>
        match hexByteVal h l with
        | none => none
        | some b =>
          if b < 128 then consDecoded (Char.ofNat b) (pctDecodeAux fuel rest1)
          else if b < 194 then none
          else if b < 224 then
            match readContByte rest1 with
            | none => none
            | some (c2, rest2) =>
              consDecoded (Char.ofNat ((b - 192) * 64 + c2)) (pctDecodeAux fuel rest2)
          else if b < 240 then
            match readContByte rest1 with
            | none => none
            | some (c2, rest2) =>
              match readContByte rest2 with
              | none => none
              | some (c3, rest3) =>
                let n := (b - 224) * 4096 + c2 * 64 + c3
                if n < 2048 then none
                else if 55296 ≤ n && n < 57344 then none
                else consDecoded (Char.ofNat n) (pctDecodeAux fuel rest3)
          else if b < 245 then
            match readContByte rest1 with
            | none => none
            | some (c2, rest2) =>
              match readContByte rest2 with
              | none => none
              | some (c3, rest3) =>
                match readContByte rest3 with
                | none => none
                | some (c4, rest4) =>
                  let n := (b - 240) * 262144 + c2 * 4096 + c3 * 64 + c4
                  if n < 65536 then none
                  else if 1114112 ≤ n then none
                  else consDecoded (Char.ofNat n) (pctDecodeAux fuel rest4)
          else none
      | _ => none
    else consDecoded c (pctDecodeAux fuel rest)

/-- `decodeURIComponent` (the fuel exceeds what any input can use). -/
def pctDecode (s : List Char) : Option (List Char) :=
  pctDecodeAux (s.length + 1) s

/-- List-level check that `pre` is an initial segment of `s`. -/
def startsWith : List Char → List Char → Bool
  | [], _ => true
  | _ :: _, [] => false
  | c :: cs, d :: ds => c = d && startsWith cs ds

/- Worker for `jsSplit`: `acc` holds the current piece reversed.  Fuel
only bounds the recursion (each step consumes at least one character
when the separator is nonempty). -/
def jsSplitAux (sep : List Char) : Nat → List Char → List Char → List (List Char)
  | 0, acc, s => [acc.reverse ++ s]
  | fuel + 1, acc, s =>
    match s with
    | [] => [acc.reverse]
    | c :: rest =>
      if startsWith sep (c :: rest) then
        acc.reverse :: jsSplitAux sep fuel [] (List.drop sep.length (c :: rest))
      else jsSplitAux sep fuel (c :: acc) rest

/-- JavaScript `String.prototype.split` with a string separator:
non-overlapping matches, left to right; the empty separator splits into
single characters. -/
def jsSplit (sep s : List Char) : List (List Char) :=
  match sep with
  | [] => s.map (fun c => [c])
  | _ => jsSplitAux sep (s.length + 1) [] s

/-- `getCookie` (src/useCookieState.ts:23).  `doc` is `document.cookie`
(`none` when `typeof document === "undefined"`).  `"; " + doc` is split
on `"; " + name + "="`; with exactly two parts, the popped tail is cut
at the next `;`, and the JavaScript `|| null` turns an empty text into
`null`. -/
def getCookie (doc : Option String) (name : String) : Option String :=
  match doc with
  | none => none
  | some dc =>
    let value := ';' :: ' ' :: dc.data
    let sep := ';' :: ' ' :: (name.data ++ ['='])
    let parts := jsSplit sep value
    if parts.length = 2 then
      match parts.getLast? with
      | none => none
      | some cookieValue =>
        if cookieValue = [] then none
        else
          match jsSplit [';'] cookieValue with
          | [] => none
          | first :: _ => if first = [] then none else some (String.mk first)
    else none

/-- Decimal string of a natural number. -/
def natToStr (n : Nat) : String := String.mk (natDigits n)

/-- Two-digit zero-padded decimal field. -/
def pad2 (n : Nat) : String := if n < 10 then ("0") ++ natToStr n else natToStr n

/-- Four-digit zero-padded year field. -/
def pad4 (n : Nat) : String :=
  if n < 10 then ("000") ++ natToStr n
  else if n < 100 then ("00") ++ natToStr n
  else if n < 1000 then ("0") ++ natToStr n
  else natToStr n

/-- UTC weekday abbreviation, `0 = Sunday`. -/
def weekdayName : Nat → String
  | 0 => "Sun"
  | 1 => "Mon"
  | 2 => "Tue"
  | 3 => "Wed"
  | 4 => "Thu"
  | 5 => "Fri"
  | _ => "Sat"

/-- Month abbreviation, `1 = January`. -/
def monthName : Nat → String
  | 1 => "Jan"
  | 2 => "Feb"
  | 3 => "Mar"
  | 4 => "Apr"
  | 5 => "May"
  | 6 => "Jun"
  | 7 => "Jul"
  | 8 => "Aug"
  | 9 => "Sep"
  | 10 => "Oct"
  | 11 => "Nov"
  | _ => "Dec"

/-- `Date.prototype.toUTCString` for a timestamp at or after the epoch,
in milliseconds: `Www, dd Mmm yyyy hh:mm:ss GMT` (the civil date is
computed with the standard days-to-date algorithm). -/
def toUTCString (ms : Nat) : String :=
  let totalSecs := ms / 1000
  let secOfDay := totalSecs % 86400
  let days := totalSecs / 86400
  let hh := secOfDay / 3600
  let mi := (secOfDay % 3600) / 60
  let ss := secOfDay % 60
  let wd := (days + 4) % 7
  let z := days + 719468
  let era := z / 146097
  let doe := z % 146097
  let yoe := (doe - doe / 1460 + doe / 36524 - doe / 146096) / 365
  let y := yoe + era * 400
  let doy := doe - (365 * yoe + yoe / 4 - yoe / 100)
  let mp := (5 * doy + 2) / 153
  let d := doy - (153 * mp + 2) / 5 + 1
  let m := if mp < 10 then mp + 3 else mp - 9
  let year := if m ≤ 2 then y + 1 else y
  weekdayName wd ++ (", ") ++ pad2 d ++ (" ") ++ monthName m ++ (" ") ++ pad4 year ++
    (" ") ++ pad2 hh ++ (":") ++ pad2 mi ++ (":") ++ pad2 ss ++ (" GMT")

/-- The options record of the hook (`CookieOptions`,
src/useCookieState.ts:3).  Every field models an optional property
(`none` is an absent/`undefined` property); `sameSite` is carried as
the raw string that is spliced into the cookie. -/
structure CookieOptions where
  days : Option Nat
  domain : Option String
  path : Option String
  secure : Option Bool
  sameSite : Option String

/-- The host environment: `doc` is `document.cookie` (`none` models
`typeof document === "undefined"`), `httpsProtocol` is
`window.location.protocol === "https:"`, and `nowMs` the current epoch
milliseconds of `new Date()`. -/
structure JsEnv where
  doc : Option String
  httpsProtocol : Bool
  nowMs : Nat

/-- `setCookie` (src/useCookieState.ts:40): composes the cookie string
assigned to `document.cookie`, or `none` when there is no document.
Defaults: `days = 365`, `path = "/"`, `secure` from the protocol,
`sameSite = "Lax"`; `domain` is appended only when truthy. -/
def setCookie (name value : String) (options : CookieOptions) (env : JsEnv) : Option String :=
  match env.doc with
  | none => none
  | some _ =>
    let days := options.days.getD 365
    let domain := options.domain
    let path := options.path.getD ("/")
    let secure := options.secure.getD env.httpsProtocol
    let sameSite := options.sameSite.getD ("Lax")
    let expiresMs := env.nowMs + days * 86400000
    let cookieString := name ++ ("=") ++ value ++ ("; expires=") ++ toUTCString expiresMs ++
      ("; path=") ++ path ++ ("; SameSite=") ++ sameSite
    let cookieString :=
      match domain with
      | some d => if d = ("") then cookieString else cookieString ++ ("; domain=") ++ d
      | none => cookieString
    let cookieString := if secure then cookieString ++ ("; Secure") else cookieString
    some cookieString

/-- `deleteCookie` (src/useCookieState.ts:73): writes the name with an
empty value and an epoch expiry, with the same `path`/`domain` rules. -/
def deleteCookie (name : String) (options : CookieOptions) (env : JsEnv) : Option String :=
  match env.doc with
  | none => none
  | some _ =>
    let domain := options.domain
    let path := options.path.getD ("/")
    let cookieString := name ++ ("=; expires=Thu, 01 Jan 1970 00:00:00 GMT; path=") ++ path
    let cookieString :=
      match domain with
      | some d => if d = ("") then cookieString else cookieString ++ ("; domain=") ++ d
      | none => cookieString
    some cookieString

/-- The hook's reactive state: the `value` `useState` cell plus the
`error` / `errorMessage` pair. -/
structure HookState where
  value : JsValue
  error : Bool
  errorMessage : Option String
  deriving DecidableEq

/-- `setError(false); setErrorMessage(null)` — the reset both `getValue`
and `setCookieValue` and `deleteCookieValue` perform on entry. -/
def clearErrorState (s : HookState) : HookState :=
  { s with error := false, errorMessage := none }

/-- The serialization used by the hook when reading:
`JSON.parse(decodeURIComponent(text))`; `Except.error` carries the
message of the exception the failing step throws. -/
def decodeText (t : String) : Except String JsValue :=
  match pctDecode t.data with
  | none => .error ("URI malformed")
  | some chars =>
    match jsonParse (String.mk chars) with
    | none => .error ("Unexpected token in JSON")
    | some v => .ok v

/-- The serialization used by the hook when writing:
`encodeURIComponent(JSON.stringify(v))`.  When `JSON.stringify` returns
`undefined` (top-level `undefined`, function or symbol),
`encodeURIComponent` coerces it to the nine-character text
`undefined`, which percent-encodes to itself. -/
def encodeText (v : JsValue) : Except String String :=
  match stringify v with
  | .error e => .error e
  | .ok none => .ok (String.mk (pctEncode ("undefined").data))
  | .ok (some chars) => .ok (String.mk (pctEncode chars))

/-- `getInitialValue` (src/useCookieState.ts:128): read the cookie and
decode it, swallowing any decode failure into the default value (the
`catch` only logs a warning).  `Except.error` in the result would mean
an exception escaping the operation; the `catch` clause makes that
impossible. -/
def getInitialValueE (name : String) (defaultValue : JsValue) (doc : Option String) :
    Except String JsValue :=
  let body : Except String JsValue :=
    match getCookie doc name with
    | none => .ok defaultValue
    | some cookieValue => decodeText cookieValue
  match body with
  | .ok v => .ok v
  | .error _ => .ok defaultValue

/-- `Initialize`: mounting the hook runs `useState(getInitialValue)`
with a clear error state (src/useCookieState.ts:124,146). -/
def initializeE (name : String) (defaultValue : JsValue) (doc : Option String) :
    Except String HookState :=
  match getInitialValueE name defaultValue doc with
  | .ok v => .ok { value := v, error := false, errorMessage := none }
  | .error e => .error e

/-- `getValue` (src/useCookieState.ts:149): clear the error state, read
and decode the cookie; a decode failure is caught, sets the error
state, and the default value is returned.  The reactive `value` cell is
never written.  `Except.error` in the result would be an exception
escaping to the caller. -/
def getValueE (name : String) (defaultValue : JsValue) (doc : Option String)
    (s : HookState) : Except String (JsValue × HookState) :=
  let s1 := clearErrorState s
  let body : Except String (JsValue × HookState) :=
    match getCookie doc name with
    | none => .ok (defaultValue, s1)
    | some cookieValue =>
      match decodeText cookieValue with
      | .ok parsed => .ok (parsed, s1)
      | .error e => .error e
  match body with
  | .ok r => .ok r
  | .error e => .ok (defaultValue, { s1 with error := true, errorMessage := some e })

/-- The argument of `setValue`: either a function value or any
non-callable value (`typeof updateFunction !== "function"`). -/
inductive SetArg where
  | fn (f : JsValue → JsValue)
  | notFn (v : JsValue)

/-- Result of the mutating operations: the cookie string passed to
`document.cookie` when a write happened, and the hook state after. -/
structure SetOutcome where
  written : Option String
  state : HookState

/-- `setCookieValue` (src/useCookieState.ts:172): clear the error
state; reject non-function arguments (log and return); apply the update
function to `value || defaultValue`; a resolved `undefined` falls back
to the default with a warning; otherwise encode, write and set.  An
encode exception is caught into the error state, with no write and no
value change.  `Except.error` in the result would be an exception
escaping to the caller. -/
def setCookieValueE (name : String) (defaultValue : JsValue) (options : CookieOptions)
    (env : JsEnv) (arg : SetArg) (s : HookState) : Except String SetOutcome :=
  let s1 := clearErrorState s
  let body : Except String SetOutcome :=
    match arg with
    | .notFn _ => .ok { written := none, state := s1 }
    | .fn updateFunction =>
      let resolvedValue := updateFunction (if truthy s.value then s.value else defaultValue)
      if resolvedValue = JsValue.undef then
        let finalValue := defaultValue
        match encodeText finalValue with
        | .error e => .error e
        | .ok stringValue =>
          .ok { written := setCookie name stringValue options env,
                state := { s1 with value := finalValue } }
      else
        match encodeText resolvedValue with
        | .error e => .error e
        | .ok stringValue =>
          .ok { written := setCookie name stringValue options env,
                state := { s1 with value := resolvedValue } }
  match body with
  | .ok r => .ok r
  | .error e => .ok { written := none, state := { s1 with error := true, errorMessage := some e } }

/-- `deleteCookieValue` (src/useCookieState.ts:214): clear the error
state, write the expiring cookie, reset the value to the default; the
`catch` clause converts any exception into the error state. -/
def deleteCookieValueE (name : String) (defaultValue : JsValue) (options : CookieOptions)
    (env : JsEnv) (s : HookState) : Except String SetOutcome :=
  let s1 := clearErrorState s
  let body : Except String SetOutcome :=
    .ok { written := deleteCookie name options env, state := { s1 with value := defaultValue } }
  match body with
  | .ok r => .ok r
  | .error e => .ok { written := none, state := { s1 with error := true, errorMessage := some e } }

/-- The persisted wire format as the specification states it:
`name=<encoded>; expires=<timestamp>; path=<path>; SameSite=<value>`
followed by `; domain=<domain>` only for a supplied (truthy) domain and
`; Secure` only when the secure flag applies, in that order.  Stated
from the spec's words, to be compared with `setCookie`. -/
def cookieWireFormat (name value expiresTs path sameSite : String)
    (domain : Option String) (secure : Bool) : String :=
  name ++ ("=") ++ value ++ ("; expires=") ++ expiresTs ++ ("; path=") ++ path ++
    ("; SameSite=") ++ sameSite ++
    (match domain with
     | some d => ("; domain=") ++ d
     | none => ("")) ++
    (if secure then ("; Secure") else (""))

/-- The update function `prev => prev + 1` of the specification's
counter scenario (JavaScript `+ 1` on the number case). -/
def jsInc : JsValue → JsValue
  | .num n => .num (n + 1)
  | v => v

/-- An adapter read is never the empty string (it is `null` instead). -/
def readNonEmpty : Option String → Bool
  | none => true
  | some s => decide (s ≠ (""))

/- Fuel cost of parsing a rendered value: enough fuel for `parseVal`
(one unit per value, one per list element).  Only used to state the
parser round-trip lemmas. -/
mutual

def costVal : JsValue → Nat
  | .arr elems => costItems elems + 1
  | .obj fields => costFields fields + 1
  | _ => 1

def costItems : JsArr → Nat
  | .nil => 1
  | .cons v rest => costVal v + costItems rest

def costFields : JsObj → Nat
  | .nil => 1
  | .cons _ v rest => costVal v + costFields rest

end

/-- The continuation after a rendered value must not begin with a digit
(the number token is read greedily). -/
def digitSafe : List Char → Bool
  | [] => true
  | c :: _ => !(isDigitChar c)

/-! Utility lemmas about characters and decimal digits. -/

theorem char_ofNat_toNat_low {n : Nat} (h : n < 55296) : (Char.ofNat n).toNat = n := by
  unfold Char.ofNat
  split
  · rfl
  · rename_i hc
    exact absurd (Or.inl h) hc

theorem char_ofNat_toNat_high {n : Nat} (h1 : 57344 ≤ n) (h2 : n < 1114112) :
    (Char.ofNat n).toNat = n := by
  unfold Char.ofNat
  split
  · rfl
  · rename_i hc
    exact absurd (Or.inr ⟨by omega, h2⟩) hc

theorem char_toNat_valid (c : Char) : c.toNat < 55296 ∨ (57344 ≤ c.toNat ∧ c.toNat < 1114112) := by
  have h := c.valid
  unfold UInt32.isValidChar Nat.isValidChar at h
  have hv : c.toNat = c.val.toNat := rfl
  omega

theorem char_toNat_inj {a b : Char} (h : a.toNat = b.toNat) : a = b := by
  apply Char.ext
  exact UInt32.toNat.inj h

theorem digitChar_toNat {n : Nat} (h : n < 10) : (digitChar n).toNat = 48 + n := by
  unfold digitChar
  exact char_ofNat_toNat_low (by omega)

theorem isDigitChar_digitChar {n : Nat} (h : n < 10) : isDigitChar (digitChar n) = true := by
  simp only [isDigitChar, digitChar_toNat h, Bool.and_eq_true, decide_eq_true_eq]
  omega

theorem natDigitsAux_ne_nil {fuel n : Nat} (h : 0 < fuel) : natDigitsAux fuel n ≠ [] := by
  match fuel with
  | f + 1 =>
    unfold natDigitsAux
    split
    · simp
    · simp

theorem natDigitsAux_digits {fuel : Nat} : ∀ {n : Nat}, n < fuel →
    ∀ c ∈ natDigitsAux fuel n, isDigitChar c = true := by
  induction fuel with
  | zero => intro n hn; omega
  | succ f ih =>
    intro n hn c hc
    unfold natDigitsAux at hc
    split at hc
    · rename_i h10
      simp at hc
      subst hc
      exact isDigitChar_digitChar h10
    · rename_i h10
      rw [List.mem_append] at hc
      rcases hc with hc | hc
      · exact ih (by omega) c hc
      · simp at hc
        subst hc
        exact isDigitChar_digitChar (by omega)

theorem digitsValAux_nil (acc : Nat) : digitsValAux acc [] = acc := rfl

theorem digitsValAux_cons (acc : Nat) (c : Char) (rest : List Char) :
    digitsValAux acc (c :: rest) = digitsValAux (acc * 10 + (c.toNat - 48)) rest := rfl

theorem natDigitsAux_lt10 {fuel n : Nat} (h : n < 10) :
    natDigitsAux (fuel + 1) n = [digitChar n] := by
  show (if n < 10 then [digitChar n] else natDigitsAux fuel (n / 10) ++ [digitChar (n % 10)]) = _
  rw [if_pos h]

theorem natDigitsAux_ge10 {fuel n : Nat} (h : ¬ n < 10) :
    natDigitsAux (fuel + 1) n = natDigitsAux fuel (n / 10) ++ [digitChar (n % 10)] := by
  show (if n < 10 then [digitChar n] else natDigitsAux fuel (n / 10) ++ [digitChar (n % 10)]) = _
  rw [if_neg h]

theorem digitsValAux_append (acc : Nat) (xs ys : List Char) :
    digitsValAux acc (xs ++ ys) = digitsValAux (digitsValAux acc xs) ys := by
  induction xs generalizing acc with
  | nil => rfl
  | cons c t ih =>
    rw [List.cons_append, digitsValAux_cons, digitsValAux_cons, ih]

theorem digitsValAux_natDigitsAux {fuel : Nat} : ∀ {n : Nat}, n < fuel → ∀ acc,
    digitsValAux acc (natDigitsAux fuel n) =
      acc * 10 ^ (natDigitsAux fuel n).length + n := by
  induction fuel with
  | zero => intro n hn; omega
  | succ f ih =>
    intro n hn acc
    by_cases h10 : n < 10
    · rw [natDigitsAux_lt10 h10, digitsValAux_cons, digitsValAux_nil,
        digitChar_toNat h10, List.length_singleton, pow_one]
      omega
    · rw [natDigitsAux_ge10 h10, digitsValAux_append, ih (by omega) acc,
        digitsValAux_cons, digitsValAux_nil, digitChar_toNat (show n % 10 < 10 by omega),
        List.length_append, List.length_singleton, pow_succ]
      set L := (natDigitsAux f (n / 10)).length with hL
      have hexp : acc * (10 ^ L * 10) = acc * 10 ^ L * 10 := by ring
      have hdm : 10 * (n / 10) + n % 10 = n := Nat.div_add_mod n 10
      omega

theorem digitsVal_natDigits (n : Nat) : digitsValAux 0 (natDigits n) = n := by
  unfold natDigits
  rw [digitsValAux_natDigitsAux (Nat.lt_succ_self n) 0]
  simp

theorem natDigits_zero : natDigits 0 = ['0'] := rfl

theorem natDigitsAux_head_ne_zero {fuel : Nat} : ∀ {n : Nat}, n < fuel → 0 < n →
    ∀ {c : Char} {t : List Char}, natDigitsAux fuel n = c :: t → c ≠ '0' := by
  induction fuel with
  | zero => intro n hn; omega
  | succ f ih =>
    intro n hn hpos c t heq
    unfold natDigitsAux at heq
    split at heq
    · rename_i h10
      simp at heq
      intro hc
      rw [hc] at heq
      have := congrArg Char.toNat heq.1
      rw [digitChar_toNat h10] at this
      have h0 : ('0').toNat = 48 := rfl
      omega
    · rename_i h10
      have hne : natDigitsAux f (n / 10) ≠ [] := natDigitsAux_ne_nil (by omega)
      obtain ⟨b, L, hbl⟩ := List.exists_cons_of_ne_nil hne
      rw [hbl] at heq
      simp at heq
      rw [← heq.1]
      exact ih (by omega) (by omega) hbl

theorem hexVal_hexDigitLower : ∀ k, k < 16 → hexVal (hexDigitLower k) = some k := by decide

theorem hexVal_hexDigitUpper : ∀ k, k < 16 → hexVal (hexDigitUpper k) = some k := by decide

theorem readDigits_cons_digit {c : Char} {rest : List Char} (h : isDigitChar c = true) :
    readDigits (c :: rest) = (c :: (readDigits rest).1, (readDigits rest).2) := by
  show (if isDigitChar c then
      ((c :: (readDigits rest).1, (readDigits rest).2) : List Char × List Char)
    else ([], c :: rest)) = _
  rw [if_pos h]

theorem readDigits_cons_nondigit {c : Char} {rest : List Char} (h : isDigitChar c = false) :
    readDigits (c :: rest) = ([], c :: rest) := by
  show (if isDigitChar c then
      ((c :: (readDigits rest).1, (readDigits rest).2) : List Char × List Char)
    else ([], c :: rest)) = _
  rw [if_neg (by simp [h])]

theorem readDigits_append {ds rest : List Char} (hds : ∀ c ∈ ds, isDigitChar c = true)
    (hrest : ∀ c, rest.head? = some c → isDigitChar c = false) :
    readDigits (ds ++ rest) = (ds, rest) := by
  induction ds with
  | nil =>
    match rest with
    | [] => rfl
    | c :: t =>
      rw [List.nil_append, readDigits_cons_nondigit (hrest c rfl)]
  | cons c t ih =>
    rw [List.cons_append, readDigits_cons_digit (hds c (by simp)),
      ih (fun d hd => hds d (by simp [hd]))]

theorem parseNumTail_roundtrip (neg : Bool) (n : Nat) (rest : List Char)
    (hrest : ∀ c, rest.head? = some c → isDigitChar c = false) :
    parseNumTail neg (natDigits n ++ rest) =
      some (.num (if neg then -(n : Int) else (n : Int)), rest) := by
  have hdigits : ∀ c ∈ natDigits n, isDigitChar c = true :=
    fun c hc => natDigitsAux_digits (Nat.lt_succ_self n) c hc
  have hne : natDigits n ≠ [] := natDigitsAux_ne_nil (by omega)
  obtain ⟨d, ds, hds⟩ := List.exists_cons_of_ne_nil hne
  have hval : digitsValAux 0 (d :: ds) = n := by
    rw [← hds]; exact digitsVal_natDigits n
  unfold parseNumTail
  rw [readDigits_append hdigits hrest, hds]
  have hguard : (decide (d = '0') && decide (ds ≠ [])) = false := by
    rcases Nat.eq_zero_or_pos n with h0 | hpos
    · subst h0
      have h := hds
      rw [natDigits_zero] at h
      injection h with h1 h2
      simp [← h2]
    · have hd0 : d ≠ '0' := natDigitsAux_head_ne_zero (Nat.lt_succ_self n) hpos hds
      simp [hd0]
  show (if decide (d = '0') && decide (ds ≠ []) then none
    else some (JsValue.num (if neg then -(Int.ofNat (digitsValAux 0 (d :: ds)))
      else Int.ofNat (digitsValAux 0 (d :: ds))), rest)) = _
  rw [hguard, if_neg (by simp), hval]
  rfl

theorem parseNumTail_roundtrip_neg (n : Nat) (rest : List Char)
    (hrest : ∀ c, rest.head? = some c → isDigitChar c = false) :
    parseNumTail true (natDigits n ++ rest) = some (.num (-(n : Int)), rest) := by
  rw [parseNumTail_roundtrip true n rest hrest]
  rfl

theorem parseNumTail_roundtrip_pos (n : Nat) (rest : List Char)
    (hrest : ∀ c, rest.head? = some c → isDigitChar c = false) :
    parseNumTail false (natDigits n ++ rest) = some (.num ((n : Int)), rest) := by
  rw [parseNumTail_roundtrip false n rest hrest]
  rfl

theorem escapeList_cons (c : Char) (rest : List Char) :
    escapeList (c :: rest) = escapeChar c ++ escapeList rest := rfl

theorem parseStringBody_step (c : Char) (f : Nat) (t : List Char) :
    parseStringBody (f + 1) (escapeChar c ++ t) = consFst c (parseStringBody f t) := by
  by_cases h32 : c.toNat < 32
  · have hc : c = Char.ofNat c.toNat := (Char.ofNat_toNat c).symm
    interval_cases h : c.toNat <;> (subst hc; rfl)
  · by_cases hq : c = '"'
    · subst hq; rfl
    · by_cases hb : c = '\\'
      · subst hb; rfl
      · have hesc : escapeChar c = [c] := by
          unfold escapeChar
          rw [if_neg hq, if_neg hb,
            if_neg (fun hx => h32 (by rw [hx]; decide)),
            if_neg (fun hx => h32 (by rw [hx]; decide)),
            if_neg (fun hx => h32 (by rw [hx]; decide)),
            if_neg (fun hx => h32 (by rw [hx]; decide)),
            if_neg (fun hx => h32 (by rw [hx]; decide)),
            if_neg h32]
        rw [hesc]
        simp only [List.cons_append, List.nil_append, parseStringBody]
        rw [if_neg hq, if_neg hb, if_neg h32]

theorem parseStringBody_escape (s : List Char) : ∀ (fuel : Nat) (rest : List Char),
    s.length < fuel →
    parseStringBody fuel (escapeList s ++ '"' :: rest) = some (s, rest) := by
  induction s with
  | nil =>
    intro fuel rest h
    match fuel, h with
    | f + 1, _ => rfl
  | cons c cs ih =>
    intro fuel rest h
    match fuel, h with
    | f + 1, h =>
      rw [escapeList_cons, List.append_assoc, parseStringBody_step,
        ih f rest (by simp at h; omega)]
      rfl

/-! The `decodeURIComponent` / `encodeURIComponent` round trip. -/

theorem pctBytes_nil : pctBytes [] = [] := rfl

theorem pctBytes_cons (b : Nat) (bs : List Nat) :
    pctBytes (b :: bs) = pctByte b ++ pctBytes bs := rfl

theorem hexByteVal_upper {b : Nat} (h : b < 256) :
    hexByteVal (hexDigitUpper (b / 16)) (hexDigitUpper (b % 16)) = some b := by
  unfold hexByteVal
  rw [hexVal_hexDigitUpper _ (by omega), hexVal_hexDigitUpper _ (by omega)]
  show some (b / 16 * 16 + b % 16) = some b
  simp only [Option.some.injEq]
  omega

theorem contByte_upper {v : Nat} (h1 : 128 ≤ v) (h2 : v < 192) :
    contByte (hexDigitUpper (v / 16)) (hexDigitUpper (v % 16)) = some (v - 128) := by
  unfold contByte
  rw [hexByteVal_upper (by omega)]
  show (if 128 ≤ v && v < 192 then some (v - 128) else none) = _
  rw [if_pos (by simp only [Bool.and_eq_true, decide_eq_true_eq]; omega)]

theorem readContByte_upper {v : Nat} (h1 : 128 ≤ v) (h2 : v < 192) (rest : List Char) :
    readContByte (pctByte v ++ rest) = some (v - 128, rest) := by
  show readContByte ('%' :: hexDigitUpper (v / 16) :: hexDigitUpper (v % 16) :: rest) = _
  show (match contByte (hexDigitUpper (v / 16)) (hexDigitUpper (v % 16)) with
    | some c2 => some (c2, rest)
    | none => none) = _
  rw [contByte_upper h1 h2]

theorem pctDecodeAux_other {c : Char} (h : c ≠ '%') (fuel : Nat) (rest : List Char) :
    pctDecodeAux (fuel + 1) (c :: rest) = consDecoded c (pctDecodeAux fuel rest) := by
  rw [pctDecodeAux.eq_def]
  simp only []
  rw [if_neg h]

theorem pctDecodeAux_pct (fuel : Nat) (h l : Char) (rest1 : List Char) :
    pctDecodeAux (fuel + 1) ('%' :: h :: l :: rest1) =
      match hexByteVal h l with
      | none => none
      | some b =>
        if b < 128 then consDecoded (Char.ofNat b) (pctDecodeAux fuel rest1)
        else if b < 194 then none
        else if b < 224 then
          match readContByte rest1 with
          | none => none
          | some (c2, rest2) =>
            consDecoded (Char.ofNat ((b - 192) * 64 + c2)) (pctDecodeAux fuel rest2)
        else if b < 240 then
          match readContByte rest1 with
          | none => none
          | some (c2, rest2) =>
            match readContByte rest2 with
            | none => none
            | some (c3, rest3) =>
              let n := (b - 224) * 4096 + c2 * 64 + c3
              if n < 2048 then none
              else if 55296 ≤ n && n < 57344 then none
              else consDecoded (Char.ofNat n) (pctDecodeAux fuel rest3)
        else if b < 245 then
          match readContByte rest1 with
          | none => none
          | some (c2, rest2) =>
            match readContByte rest2 with
            | none => none
            | some (c3, rest3) =>
              match readContByte rest3 with
              | none => none
              | some (c4, rest4) =>
                let n := (b - 240) * 262144 + c2 * 4096 + c3 * 64 + c4
                if n < 65536 then none
                else if 1114112 ≤ n then none
                else consDecoded (Char.ofNat n) (pctDecodeAux fuel rest4)
        else none := rfl

theorem pctDecodeAux_encodeChar (c : Char) (fuel : Nat) (rest : List Char) :
    pctDecodeAux (fuel + 1) (pctEncodeChar c ++ rest) =
      consDecoded c (pctDecodeAux fuel rest) := by
  by_cases hu : isUnreserved c = true
  · have hesc : pctEncodeChar c = [c] := by unfold pctEncodeChar; rw [if_pos hu]
    have hpc : c ≠ '%' := by
      intro hx
      rw [hx] at hu
      exact absurd hu (by decide)
    rw [hesc, List.cons_append, List.nil_append, pctDecodeAux_other hpc]
  · have hesc : pctEncodeChar c = pctBytes (utf8Bytes c.toNat) := by
      unfold pctEncodeChar; rw [if_neg hu]
    rw [hesc]
    have hvalid := char_toNat_valid c
    have hc : Char.ofNat c.toNat = c := Char.ofNat_toNat c
    by_cases h1 : c.toNat < 128
    · have hb : utf8Bytes c.toNat = [c.toNat] := by unfold utf8Bytes; rw [if_pos h1]
      rw [hb, pctBytes_cons]
      show pctDecodeAux (fuel + 1)
        ('%' :: hexDigitUpper (c.toNat / 16) :: hexDigitUpper (c.toNat % 16) :: rest) = _
      rw [pctDecodeAux_pct, hexByteVal_upper (by omega)]
      show (if c.toNat < 128 then consDecoded (Char.ofNat c.toNat) (pctDecodeAux fuel rest)
        else _) = _
      rw [if_pos h1, hc]
    · by_cases h2 : c.toNat < 2048
      · have hb : utf8Bytes c.toNat = [192 + c.toNat / 64, 128 + c.toNat % 64] := by
          unfold utf8Bytes; rw [if_neg h1, if_pos h2]
        rw [hb, pctBytes_cons, pctBytes_cons]
        rw [pctBytes_nil, List.append_nil, List.append_assoc]
        show pctDecodeAux (fuel + 1) ('%' :: hexDigitUpper ((192 + c.toNat / 64) / 16) ::
          hexDigitUpper ((192 + c.toNat / 64) % 16) ::
          (pctByte (128 + c.toNat % 64) ++ rest)) = _
        rw [pctDecodeAux_pct, hexByteVal_upper (by omega)]
        show (if 192 + c.toNat / 64 < 128 then _ else _) = _
        rw [if_neg (by omega), if_neg (by omega), if_pos (by omega)]
        rw [readContByte_upper (by omega) (by omega)]
        show consDecoded (Char.ofNat ((192 + c.toNat / 64 - 192) * 64 + (128 + c.toNat % 64 - 128)))
          (pctDecodeAux fuel rest) = _
        have harith : (192 + c.toNat / 64 - 192) * 64 + (128 + c.toNat % 64 - 128) = c.toNat := by
          omega
        rw [harith, hc]
      · by_cases h3 : c.toNat < 65536
        · have hb : utf8Bytes c.toNat =
              [224 + c.toNat / 4096, 128 + (c.toNat / 64) % 64, 128 + c.toNat % 64] := by
            unfold utf8Bytes; rw [if_neg h1, if_neg h2, if_pos h3]
          rw [hb, pctBytes_cons, pctBytes_cons, pctBytes_cons]
          rw [pctBytes_nil, List.append_nil, List.append_assoc, List.append_assoc]
          show pctDecodeAux (fuel + 1) ('%' :: hexDigitUpper ((224 + c.toNat / 4096) / 16) ::
            hexDigitUpper ((224 + c.toNat / 4096) % 16) ::
            (pctByte (128 + (c.toNat / 64) % 64) ++ (pctByte (128 + c.toNat % 64) ++ rest))) = _
          rw [pctDecodeAux_pct, hexByteVal_upper (by omega)]
          show (if 224 + c.toNat / 4096 < 128 then _ else _) = _
          rw [if_neg (by omega), if_neg (by omega), if_neg (by omega), if_pos (by omega)]
          rw [readContByte_upper (by omega) (by omega)]
          simp only []
          rw [readContByte_upper (by omega) (by omega)]
          show (if (224 + c.toNat / 4096 - 224) * 4096 + (128 + (c.toNat / 64) % 64 - 128) * 64 +
              (128 + c.toNat % 64 - 128) < 2048 then none
            else if 55296 ≤ (224 + c.toNat / 4096 - 224) * 4096 +
                (128 + (c.toNat / 64) % 64 - 128) * 64 + (128 + c.toNat % 64 - 128) &&
                (224 + c.toNat / 4096 - 224) * 4096 + (128 + (c.toNat / 64) % 64 - 128) * 64 +
                (128 + c.toNat % 64 - 128) < 57344 then none
            else consDecoded (Char.ofNat ((224 + c.toNat / 4096 - 224) * 4096 +
              (128 + (c.toNat / 64) % 64 - 128) * 64 + (128 + c.toNat % 64 - 128)))
              (pctDecodeAux fuel rest)) = _
          have harith : (224 + c.toNat / 4096 - 224) * 4096 +
              (128 + (c.toNat / 64) % 64 - 128) * 64 + (128 + c.toNat % 64 - 128) = c.toNat := by
            omega
          rw [harith, if_neg (by omega),
            if_neg (by simp only [Bool.and_eq_true, decide_eq_true_eq]; omega), hc]
        · have h4 : c.toNat < 1114112 := by omega
          have hb : utf8Bytes c.toNat = [240 + c.toNat / 262144, 128 + (c.toNat / 4096) % 64,
              128 + (c.toNat / 64) % 64, 128 + c.toNat % 64] := by
            unfold utf8Bytes; rw [if_neg h1, if_neg h2, if_neg h3]
          rw [hb, pctBytes_cons, pctBytes_cons, pctBytes_cons, pctBytes_cons]
          rw [pctBytes_nil, List.append_nil, List.append_assoc, List.append_assoc, List.append_assoc]
          show pctDecodeAux (fuel + 1) ('%' :: hexDigitUpper ((240 + c.toNat / 262144) / 16) ::
            hexDigitUpper ((240 + c.toNat / 262144) % 16) ::
            (pctByte (128 + (c.toNat / 4096) % 64) ++ (pctByte (128 + (c.toNat / 64) % 64) ++
              (pctByte (128 + c.toNat % 64) ++ rest)))) = _
          rw [pctDecodeAux_pct, hexByteVal_upper (by omega)]
          show (if 240 + c.toNat / 262144 < 128 then _ else _) = _
          rw [if_neg (by omega), if_neg (by omega), if_neg (by omega), if_neg (by omega),
            if_pos (by omega)]
          rw [readContByte_upper (by omega) (by omega)]
          simp only []
          rw [readContByte_upper (by omega) (by omega)]
          simp only []
          rw [readContByte_upper (by omega) (by omega)]
          show (if (240 + c.toNat / 262144 - 240) * 262144 +
              (128 + (c.toNat / 4096) % 64 - 128) * 4096 + (128 + (c.toNat / 64) % 64 - 128) * 64 +
              (128 + c.toNat % 64 - 128) < 65536 then none
            else if 1114112 ≤ (240 + c.toNat / 262144 - 240) * 262144 +
                (128 + (c.toNat / 4096) % 64 - 128) * 4096 +
                (128 + (c.toNat / 64) % 64 - 128) * 64 + (128 + c.toNat % 64 - 128) then none
            else consDecoded (Char.ofNat ((240 + c.toNat / 262144 - 240) * 262144 +
              (128 + (c.toNat / 4096) % 64 - 128) * 4096 + (128 + (c.toNat / 64) % 64 - 128) * 64 +
              (128 + c.toNat % 64 - 128))) (pctDecodeAux fuel rest)) = _
          have harith : (240 + c.toNat / 262144 - 240) * 262144 +
              (128 + (c.toNat / 4096) % 64 - 128) * 4096 + (128 + (c.toNat / 64) % 64 - 128) * 64 +
              (128 + c.toNat % 64 - 128) = c.toNat := by
            omega
          rw [harith, if_neg (by omega), if_neg (by omega), hc]

theorem pctEncode_cons (c : Char) (rest : List Char) :
    pctEncode (c :: rest) = pctEncodeChar c ++ pctEncode rest := rfl

theorem pctDecodeAux_pctEncode (s : List Char) : ∀ fuel, s.length < fuel →
    pctDecodeAux fuel (pctEncode s) = some s := by
  induction s with
  | nil =>
    intro fuel h
    match fuel, h with
    | f + 1, _ => rfl
  | cons c t ih =>
    intro fuel h
    match fuel, h with
    | f + 1, h =>
      rw [pctEncode_cons, pctDecodeAux_encodeChar, ih f (by simp at h; omega)]
      rfl

theorem pctEncodeChar_ne_nil (c : Char) : pctEncodeChar c ≠ [] := by
  unfold pctEncodeChar
  split
  · simp
  · unfold utf8Bytes
    split
    · simp [pctBytes_cons, pctByte]
    · split
      · simp [pctBytes_cons, pctByte]
      · split
        · simp [pctBytes_cons, pctByte]
        · simp [pctBytes_cons, pctByte]

theorem pctEncode_length_ge (s : List Char) : s.length ≤ (pctEncode s).length := by
  induction s with
  | nil => simp [pctEncode]
  | cons c t ih =>
    rw [pctEncode_cons, List.length_append, List.length_cons]
    have hne := pctEncodeChar_ne_nil c
    have : 0 < (pctEncodeChar c).length := List.length_pos.mpr hne
    omega

theorem pctDecode_pctEncode (s : List Char) : pctDecode (pctEncode s) = some s := by
  unfold pctDecode
  exact pctDecodeAux_pctEncode s _ (by have := pctEncode_length_ge s; omega)

/-! Support lemmas for the `JSON.parse` / `JSON.stringify` round trip. -/

theorem string_mk_data (s : String) : String.mk s.data = s := rfl

theorem escapeChar_ne_nil (c : Char) : escapeChar c ≠ [] := by
  unfold escapeChar
  split_ifs <;> simp

theorem escapeList_length_ge (s : List Char) : s.length ≤ (escapeList s).length := by
  induction s with
  | nil => simp [escapeList]
  | cons c t ih =>
    rw [escapeList_cons, List.length_append, List.length_cons]
    have : 0 < (escapeChar c).length := List.length_pos.mpr (escapeChar_ne_nil c)
    omega

theorem costVal_pos (v : JsValue) : 1 ≤ costVal v := by
  cases v <;> simp [costVal]

theorem costItems_pos (xs : JsArr) : 1 ≤ costItems xs := by
  cases xs with
  | nil => simp [costItems]
  | cons v rest =>
    have := costVal_pos v
    simp [costItems]
    omega

theorem costFields_pos (fs : JsObj) : 1 ≤ costFields fs := by
  cases fs with
  | nil => simp [costFields]
  | cons k v rest =>
    have := costVal_pos v
    simp [costFields]
    omega

theorem joinComma_nil : joinComma [] = [] := rfl

theorem joinComma_single (x : List Char) : joinComma [x] = x := rfl

theorem joinComma_cons (x y : List Char) (ys : List (List Char)) :
    joinComma (x :: y :: ys) = x ++ ',' :: joinComma (y :: ys) := rfl

theorem joinComma_cons_ne_nil (x : List Char) {xs : List (List Char)} (h : xs ≠ []) :
    joinComma (x :: xs) = x ++ ',' :: joinComma xs := by
  match xs, h with
  | y :: ys, _ => rw [joinComma_cons]

theorem renderItems_cons (v : JsValue) (rest : JsArr) :
    renderItems (.cons v rest) = render v :: renderItems rest := by
  rw [renderItems]

theorem renderFields_cons (k : String) (v : JsValue) (rest : JsObj) :
    renderFields (.cons k v rest) = (quoteChars k.data ++ ':' :: render v) :: renderFields rest := by
  rw [renderFields]

theorem skipWs_cons_not_ws {c : Char} (h : isWsChar c = false) (rest : List Char) :
    skipWs (c :: rest) = c :: rest := by
  show (if isWsChar c then skipWs rest else c :: rest) = _
  rw [h]
  simp

theorem natDigits_head_lemma (n : Nat) : ∃ d ds, natDigits n = d :: ds ∧ isDigitChar d = true := by
  have hne : natDigits n ≠ [] := natDigitsAux_ne_nil (by omega)
  obtain ⟨d, ds, hds⟩ := List.exists_cons_of_ne_nil hne
  refine ⟨d, ds, hds, ?_⟩
  have hmem : d ∈ natDigits n := by rw [hds]; simp
  exact natDigitsAux_digits (Nat.lt_succ_self n) d hmem

theorem isDigitChar_props {d : Char} (h : isDigitChar d = true) :
    isWsChar d = false ∧ d ≠ ']' ∧ d ≠ 'n' ∧ d ≠ 't' ∧ d ≠ 'f' ∧ d ≠ '"' ∧ d ≠ '-' ∧
      d ≠ '[' ∧ d ≠ Char.ofNat 123 := by
  simp only [isDigitChar, Bool.and_eq_true, decide_eq_true_eq] at h
  have hws : isWsChar d = false := by
    simp only [isWsChar, Bool.or_eq_false_iff, decide_eq_false_iff_not]
    refine ⟨⟨⟨?_, ?_⟩, ?_⟩, ?_⟩ <;>
      (intro hx; rw [hx] at h; revert h; decide)
  refine ⟨hws, ?_, ?_, ?_, ?_, ?_, ?_, ?_, ?_⟩ <;>
    (intro hx; rw [hx] at h; revert h; decide)

/-- Every rendered representable value begins with a character that is
not whitespace and not `]`. -/
theorem render_head_props (v : JsValue) (hrep : isJsonRep v = true) :
    ∃ c t, render v = c :: t ∧ isWsChar c = false ∧ c ≠ ']' := by
  cases v with
  | jsNull => exact ⟨'n', _, rfl, by decide, by decide⟩
  | bool b => cases b with
    | true => exact ⟨'t', _, rfl, by decide, by decide⟩
    | false => exact ⟨'f', _, rfl, by decide, by decide⟩
  | num n =>
    show ∃ c t, intChars n = c :: t ∧ _
    unfold intChars
    by_cases hneg : n < 0
    · rw [if_pos hneg]
      exact ⟨'-', _, rfl, by decide, by decide⟩
    · rw [if_neg hneg]
      obtain ⟨d, ds, hds, hdig⟩ := natDigits_head_lemma n.natAbs
      obtain ⟨hws, hbr, _⟩ := isDigitChar_props hdig
      exact ⟨d, ds, hds, hws, hbr⟩
  | str s => exact ⟨'"', _, rfl, by decide, by decide⟩
  | arr elems => exact ⟨'[', _, rfl, by decide, by decide⟩
  | obj fields => exact ⟨Char.ofNat 123, _, rfl, by decide, by decide⟩
  | undef => exact absurd hrep (by simp [isJsonRep])
  | func => exact absurd hrep (by simp [isJsonRep])
  | symbol => exact absurd hrep (by simp [isJsonRep])
  | circular => exact absurd hrep (by simp [isJsonRep])

theorem digitSafe_head {rest : List Char} (h : digitSafe rest = true) :
    ∀ c, rest.head? = some c → isDigitChar c = false := by
  intro c hc
  match rest, hc with
  | c :: t, rfl =>
    simp only [digitSafe, Bool.not_eq_true'] at h
    exact h

theorem parseVal_null (f : Nat) (rest : List Char) :
    parseVal (f + 1) ('n' :: 'u' :: 'l' :: 'l' :: rest) = some (.jsNull, rest) := rfl

theorem parseVal_true (f : Nat) (rest : List Char) :
    parseVal (f + 1) ('t' :: 'r' :: 'u' :: 'e' :: rest) = some (.bool true, rest) := rfl

theorem parseVal_false (f : Nat) (rest : List Char) :
    parseVal (f + 1) ('f' :: 'a' :: 'l' :: 's' :: 'e' :: rest) = some (.bool false, rest) := rfl

theorem parseVal_str (f : Nat) (tail : List Char) :
    parseVal (f + 1) ('"' :: tail) =
      match parseStringBody (tail.length + 1) tail with
      | some (s, r) => some (.str (String.mk s), r)
      | none => none := rfl

theorem parseVal_neg (f : Nat) (tail : List Char) :
    parseVal (f + 1) ('-' :: tail) = parseNumTail true tail := rfl

theorem parseVal_arr (f : Nat) (tail : List Char) :
    parseVal (f + 1) ('[' :: tail) =
      match skipWs tail with
      | [] => none
      | d :: r2 =>
        if d = ']' then some (.arr .nil, r2)
        else
          match parseItems f (d :: r2) with
          | some (xs, r3) => some (.arr xs, r3)
          | none => none := rfl

theorem parseVal_obj (f : Nat) (tail : List Char) :
    parseVal (f + 1) (Char.ofNat 123 :: tail) =
      match skipWs tail with
      | d :: r2 =>
        if d = Char.ofNat 125 then some (.obj .nil, r2)
        else
          match parseFields f (d :: r2) with
          | some (fs, r3) => some (.obj fs, r3)
          | none => none
      | [] => none := rfl

theorem parseVal_digit {d : Char} (h : isDigitChar d = true) (f : Nat) (tail : List Char) :
    parseVal (f + 1) (d :: tail) = parseNumTail false (d :: tail) := by
  obtain ⟨_, _, hn, ht, hf, hq, hm, hbr, hob⟩ := isDigitChar_props h
  rw [parseVal.eq_def]
  simp only []
  rw [if_neg hn, if_neg ht, if_neg hf, if_neg hq, if_neg hm, if_pos h]

theorem parseItems_eq (f : Nat) (input : List Char) :
    parseItems (f + 1) input =
      match parseVal f (skipWs input) with
      | none => none
      | some (v, r) =>
        match skipWs r with
        | ']' :: r2 => some (.cons v .nil, r2)
        | ',' :: r2 =>
          match parseItems f r2 with
          | some (vs, r3) => some (.cons v vs, r3)
          | none => none
        | _ => none := rfl

theorem parseFields_eq (f : Nat) (input : List Char) :
    parseFields (f + 1) input =
      match skipWs input with
      | [] => none
      | c :: r1 =>
        if c = '"' then
          match parseStringBody (r1.length + 1) r1 with
          | none => none
          | some (k, r2) =>
            match skipWs r2 with
            | ':' :: r3 =>
              match parseVal f (skipWs r3) with
              | none => none
              | some (v, r4) =>
                match skipWs r4 with
                | d :: r5 =>
                  if d = Char.ofNat 125 then some (.cons (String.mk k) v .nil, r5)
                  else if d = ',' then
                    match parseFields f r5 with
                    | some (fs, r6) => some (.cons (String.mk k) v fs, r6)
                    | none => none
                  else none
                | [] => none
            | _ => none
        else none := rfl

theorem renderItems_nil : renderItems .nil = [] := by rw [renderItems]

theorem renderFields_nil : renderFields .nil = [] := by rw [renderFields]

mutual

theorem parseVal_render (v : JsValue) : ∀ (fuel : Nat) (rest : List Char),
    isJsonRep v = true → costVal v ≤ fuel → digitSafe rest = true →
    parseVal fuel (render v ++ rest) = some (v, rest) := by
  intro fuel rest hrep hcost hsafe
  cases v with
  | undef => exact absurd hrep (by decide)
  | func => exact absurd hrep (by decide)
  | symbol => exact absurd hrep (by decide)
  | circular => exact absurd hrep (by decide)
  | jsNull =>
    match fuel, hcost with
    | f + 1, _ => exact parseVal_null f rest
  | bool b =>
    match fuel, hcost with
    | f + 1, _ =>
      cases b with
      | true => exact parseVal_true f rest
      | false => exact parseVal_false f rest
  | num n =>
    match fuel, hcost with
    | f + 1, _ =>
      show parseVal (f + 1) (intChars n ++ rest) = _
      unfold intChars
      by_cases hneg : n < 0
      · have harr : -((n.natAbs : Nat) : Int) = n := by omega
        rw [if_pos hneg, List.cons_append, parseVal_neg,
          parseNumTail_roundtrip_neg n.natAbs rest (digitSafe_head hsafe), harr]
      · have harr : ((n.natAbs : Nat) : Int) = n := by omega
        obtain ⟨d, ds, hds, hdig⟩ := natDigits_head_lemma n.natAbs
        rw [if_neg hneg, hds, List.cons_append, parseVal_digit hdig, ← List.cons_append, ← hds,
          parseNumTail_roundtrip_pos n.natAbs rest (digitSafe_head hsafe), harr]
  | str s =>
    match fuel, hcost with
    | f + 1, _ =>
      show parseVal (f + 1) (quoteChars s.data ++ rest) = _
      unfold quoteChars
      rw [List.cons_append, List.append_assoc, List.singleton_append, parseVal_str]
      rw [parseStringBody_escape s.data _ rest (by
        have h1 := escapeList_length_ge s.data
        simp only [List.length_append, List.length_cons]
        omega)]
  | arr elems =>
    cases elems with
    | nil =>
      match fuel, hcost with
      | f + 1, _ => exact parseVal_arr f (']' :: rest)
    | cons v vs =>
      match fuel, hcost with
      | f + 1, hcost =>
        show parseVal (f + 1)
          (('[' :: (joinComma (renderItems (.cons v vs)) ++ [']'])) ++ rest) = _
        rw [List.cons_append, parseVal_arr, List.append_assoc, List.singleton_append]
        have hrepv : isJsonRep v = true ∧ isJsonRepItems vs = true := by
          have hx : isJsonRepItems (JsArr.cons v vs) = true := hrep
          rw [isJsonRepItems] at hx
          simpa using hx
        obtain ⟨c0, t0, hh, hws, hbr⟩ := render_head_props v hrepv.1
        have hjoin : ∃ t1, joinComma (renderItems (JsArr.cons v vs)) = c0 :: t1 := by
          rw [renderItems_cons]
          cases vs with
          | nil => exact ⟨t0, by rw [renderItems_nil, joinComma_single, hh]⟩
          | cons v2 vs2 =>
            refine ⟨t0 ++ ',' :: joinComma (renderItems (JsArr.cons v2 vs2)), ?_⟩
            rw [renderItems_cons, joinComma_cons, ← renderItems_cons, hh, List.cons_append]
        obtain ⟨t1, ht1⟩ := hjoin
        rw [ht1, List.cons_append, skipWs_cons_not_ws hws]
        simp only []
        rw [if_neg hbr, ← List.cons_append, ← ht1]
        rw [parseItems_render (.cons v vs) f rest (by simp) hrep (by
          have h1 := costVal_pos v
          have h2 : costVal (JsValue.arr (JsArr.cons v vs)) =
            costItems (JsArr.cons v vs) + 1 := by rw [costVal]
          omega)]
  | obj fields =>
    cases fields with
    | nil =>
      match fuel, hcost with
      | f + 1, _ => exact parseVal_obj f (Char.ofNat 125 :: rest)
    | cons k v fs =>
      match fuel, hcost with
      | f + 1, hcost =>
        show parseVal (f + 1)
          ((Char.ofNat 123 :: (joinComma (renderFields (.cons k v fs)) ++ [Char.ofNat 125])) ++
            rest) = _
        rw [List.cons_append, parseVal_obj, List.append_assoc, List.singleton_append]
        have hjoin : ∃ t1, joinComma (renderFields (JsObj.cons k v fs)) = '"' :: t1 := by
          rw [renderFields_cons]
          cases fs with
          | nil =>
            refine ⟨escapeList k.data ++ ['"'] ++ (':' :: render v), ?_⟩
            rw [renderFields_nil, joinComma_single]
            unfold quoteChars
            simp [List.append_assoc]
          | cons k2 v2 fs2 =>
            refine ⟨escapeList k.data ++ ['"'] ++ (':' :: render v) ++
              ',' :: joinComma (renderFields (JsObj.cons k2 v2 fs2)), ?_⟩
            rw [renderFields_cons, joinComma_cons, ← renderFields_cons]
            unfold quoteChars
            simp [List.append_assoc]
        obtain ⟨t1, ht1⟩ := hjoin
        rw [ht1, List.cons_append, skipWs_cons_not_ws (by decide)]
        simp only []
        rw [if_neg (by decide), ← List.cons_append, ← ht1]
        rw [parseFields_render (.cons k v fs) f rest (by simp) hrep (by
          have h1 := costVal_pos v
          have h2 : costVal (JsValue.obj (JsObj.cons k v fs)) =
            costFields (JsObj.cons k v fs) + 1 := by rw [costVal]
          omega)]

theorem parseItems_render (xs : JsArr) : ∀ (fuel : Nat) (rest : List Char),
    xs ≠ .nil → isJsonRepItems xs = true → costItems xs ≤ fuel →
    parseItems fuel (joinComma (renderItems xs) ++ ']' :: rest) = some (xs, rest) := by
  intro fuel rest hne hrep hcost
  cases xs with
  | nil => exact absurd rfl hne
  | cons v vs =>
    have hcv := costVal_pos v
    have hci := costItems_pos vs
    have hcc : costItems (JsArr.cons v vs) = costVal v + costItems vs := by rw [costItems]
    have hrep2 : isJsonRep v = true ∧ isJsonRepItems vs = true := by
      have hx : isJsonRepItems (JsArr.cons v vs) = true := hrep
      rw [isJsonRepItems] at hx
      simpa using hx
    cases fuel with
    | zero => exact absurd hcost (by omega)
    | succ f =>
      rw [parseItems_eq, renderItems_cons]
      obtain ⟨c0, t0, hh, hws, _⟩ := render_head_props v hrep2.1
      cases vs with
      | nil =>
        rw [renderItems_nil, joinComma_single, hh, List.cons_append, skipWs_cons_not_ws hws,
          ← List.cons_append, ← hh,
          parseVal_render v f (']' :: rest) hrep2.1 (by omega) rfl]
        rfl
      | cons v2 vs2 =>
        rw [joinComma_cons_ne_nil _ (by rw [renderItems_cons]; simp), hh]
        rw [show (c0 :: t0 ++ ',' :: joinComma (renderItems (JsArr.cons v2 vs2))) ++ ']' :: rest =
          c0 :: (t0 ++ (',' :: (joinComma (renderItems (JsArr.cons v2 vs2)) ++ ']' :: rest)))
          by simp]
        rw [skipWs_cons_not_ws hws]
        rw [show c0 :: (t0 ++ (',' :: (joinComma (renderItems (JsArr.cons v2 vs2)) ++
            ']' :: rest))) = (c0 :: t0) ++
            (',' :: (joinComma (renderItems (JsArr.cons v2 vs2)) ++ ']' :: rest)) by simp]
        rw [← hh, parseVal_render v f
          (',' :: (joinComma (renderItems (JsArr.cons v2 vs2)) ++ ']' :: rest))
          hrep2.1 (by omega) rfl]
        simp only []
        rw [skipWs_cons_not_ws (by decide)]
        simp only []
        rw [parseItems_render (.cons v2 vs2) f rest (by simp) hrep2.2 (by omega)]

theorem parseFields_render (fs : JsObj) : ∀ (fuel : Nat) (rest : List Char),
    fs ≠ .nil → isJsonRepFields fs = true → costFields fs ≤ fuel →
    parseFields fuel (joinComma (renderFields fs) ++ Char.ofNat 125 :: rest) =
      some (fs, rest) := by
  intro fuel rest hne hrep hcost
  cases fs with
  | nil => exact absurd rfl hne
  | cons k v vs =>
    have hcv := costVal_pos v
    have hci := costFields_pos vs
    have hcc : costFields (JsObj.cons k v vs) = costVal v + costFields vs := by rw [costFields]
    have hrep2 : isJsonRep v = true ∧ isJsonRepFields vs = true := by
      have hx : isJsonRepFields (JsObj.cons k v vs) = true := hrep
      rw [isJsonRepFields] at hx
      simpa using hx
    cases fuel with
    | zero => exact absurd hcost (by omega)
    | succ f =>
      rw [parseFields_eq, renderFields_cons]
      obtain ⟨c0, t0, hh, hws, _⟩ := render_head_props v hrep2.1
      cases vs with
      | nil =>
        rw [renderFields_nil, joinComma_single]
        unfold quoteChars
        rw [show (('"' :: (escapeList k.data ++ ['"']) ++ ':' :: render v) ++
            Char.ofNat 125 :: rest) =
          '"' :: (escapeList k.data ++ '"' :: (':' :: (render v ++ Char.ofNat 125 :: rest)))
          by simp]
        rw [skipWs_cons_not_ws (by decide)]
        simp only []
        rw [if_pos (by trivial)]
        rw [parseStringBody_escape k.data _ _ (by
          have h1 := escapeList_length_ge k.data
          simp only [List.length_append, List.length_cons]
          omega)]
        simp only []
        rw [skipWs_cons_not_ws (by decide)]
        simp only []
        rw [hh, List.cons_append, skipWs_cons_not_ws hws, ← List.cons_append, ← hh,
          parseVal_render v f (Char.ofNat 125 :: rest) hrep2.1 (by omega) rfl]
        simp only []
        rw [skipWs_cons_not_ws (by decide)]
        simp only []
        rw [if_pos (by trivial), string_mk_data]
      | cons k2 v2 vs2 =>
        rw [joinComma_cons_ne_nil _ (by rw [renderFields_cons]; simp)]
        unfold quoteChars
        rw [show ((('"' :: (escapeList k.data ++ ['"']) ++ ':' :: render v) ++
            ',' :: joinComma (renderFields (JsObj.cons k2 v2 vs2))) ++ Char.ofNat 125 :: rest) =
          '"' :: (escapeList k.data ++ '"' :: (':' :: (render v ++
            ',' :: (joinComma (renderFields (JsObj.cons k2 v2 vs2)) ++ Char.ofNat 125 :: rest))))
          by simp]
        rw [skipWs_cons_not_ws (by decide)]
        simp only []
        rw [if_pos (by trivial)]
        rw [parseStringBody_escape k.data _ _ (by
          have h1 := escapeList_length_ge k.data
          simp only [List.length_append, List.length_cons]
          omega)]
        simp only []
        rw [skipWs_cons_not_ws (by decide)]
        simp only []
        rw [hh, List.cons_append, skipWs_cons_not_ws hws, ← List.cons_append, ← hh,
          parseVal_render v f
            (',' :: (joinComma (renderFields (JsObj.cons k2 v2 vs2)) ++ Char.ofNat 125 :: rest))
            hrep2.1 (by omega) rfl]
        simp only []
        rw [skipWs_cons_not_ws (by decide)]
        simp only []
        rw [if_neg (by decide), if_pos (by trivial)]
        rw [parseFields_render (.cons k2 v2 vs2) f rest (by simp) hrep2.2 (by omega),
          string_mk_data]

end

/-! From the parser round trip to `jsonParse` and the serialization
round trip. -/

mutual

theorem costVal_le_renderLen (v : JsValue) :
    isJsonRep v = true → costVal v ≤ (render v).length := by
  intro hrep
  cases v with
  | undef => exact absurd hrep (by decide)
  | func => exact absurd hrep (by decide)
  | symbol => exact absurd hrep (by decide)
  | circular => exact absurd hrep (by decide)
  | jsNull => decide
  | bool b => cases b <;> decide
  | num n =>
    show costVal (.num n) ≤ (intChars n).length
    have h1 : costVal (JsValue.num n) = 1 := rfl
    have h2 : intChars n ≠ [] := by
      unfold intChars
      split
      · simp
      · exact natDigitsAux_ne_nil (by omega)
    have := List.length_pos.mpr h2
    omega
  | str s =>
    show costVal (.str s) ≤ (quoteChars s.data).length
    have h1 : costVal (JsValue.str s) = 1 := rfl
    unfold quoteChars
    simp only [List.length_cons]
    omega
  | arr elems =>
    have h1 : costVal (JsValue.arr elems) = costItems elems + 1 := by rw [costVal]
    have h2 := costItems_le_joinLen elems hrep
    show _ ≤ ('[' :: (joinComma (renderItems elems) ++ [']'])).length
    simp only [List.length_cons, List.length_append, List.length_singleton]
    omega
  | obj fields =>
    have h1 : costVal (JsValue.obj fields) = costFields fields + 1 := by rw [costVal]
    have h2 := costFields_le_joinLen fields hrep
    show _ ≤ (Char.ofNat 123 :: (joinComma (renderFields fields) ++ [Char.ofNat 125])).length
    simp only [List.length_cons, List.length_append, List.length_singleton]
    omega

theorem costItems_le_joinLen (xs : JsArr) :
    isJsonRepItems xs = true → costItems xs ≤ (joinComma (renderItems xs)).length + 1 := by
  intro hrep
  cases xs with
  | nil =>
    rw [renderItems_nil, joinComma_nil]
    simp [costItems]
  | cons v vs =>
    have hrep2 : isJsonRep v = true ∧ isJsonRepItems vs = true := by
      have hx : isJsonRepItems (JsArr.cons v vs) = true := hrep
      rw [isJsonRepItems] at hx
      simpa using hx
    have hv := costVal_le_renderLen v hrep2.1
    have hcc : costItems (JsArr.cons v vs) = costVal v + costItems vs := by rw [costItems]
    rw [renderItems_cons]
    cases vs with
    | nil =>
      rw [renderItems_nil, joinComma_single]
      have : costItems JsArr.nil = 1 := by rw [costItems]
      omega
    | cons v2 vs2 =>
      have hvs := costItems_le_joinLen (.cons v2 vs2) hrep2.2
      rw [joinComma_cons_ne_nil _ (by rw [renderItems_cons]; simp)]
      simp only [List.length_append, List.length_cons]
      omega

theorem costFields_le_joinLen (fs : JsObj) :
    isJsonRepFields fs = true → costFields fs ≤ (joinComma (renderFields fs)).length + 1 := by
  intro hrep
  cases fs with
  | nil =>
    rw [renderFields_nil, joinComma_nil]
    simp [costFields]
  | cons k v vs =>
    have hrep2 : isJsonRep v = true ∧ isJsonRepFields vs = true := by
      have hx : isJsonRepFields (JsObj.cons k v vs) = true := hrep
      rw [isJsonRepFields] at hx
      simpa using hx
    have hv := costVal_le_renderLen v hrep2.1
    have hcc : costFields (JsObj.cons k v vs) = costVal v + costFields vs := by rw [costFields]
    rw [renderFields_cons]
    cases vs with
    | nil =>
      rw [renderFields_nil, joinComma_single]
      have : costFields JsObj.nil = 1 := by rw [costFields]
      simp only [List.length_append, List.length_cons]
      omega
    | cons k2 v2 vs2 =>
      have hvs := costFields_le_joinLen (.cons k2 v2 vs2) hrep2.2
      rw [joinComma_cons_ne_nil _ (by rw [renderFields_cons]; simp)]
      simp only [List.length_append, List.length_cons]
      omega

end

theorem jsonParse_render {v : JsValue} (hrep : isJsonRep v = true) :
    jsonParse (String.mk (render v)) = some v := by
  unfold jsonParse
  obtain ⟨c0, t0, hh, hws, _⟩ := render_head_props v hrep
  show (match parseVal ((skipWs (render v)).length + 1) (skipWs (render v)) with
    | some (pv, rest) => if skipWs rest = [] then some pv else none
    | none => none) = _
  rw [hh, skipWs_cons_not_ws hws, ← hh]
  have hcost : costVal v ≤ (render v).length + 1 := by
    have := costVal_le_renderLen v hrep
    omega
  have hmain := parseVal_render v ((render v).length + 1) [] hrep hcost rfl
  rw [List.append_nil] at hmain
  rw [hmain]
  rfl

/-! Bridge between `stringify` and its pure rendering. -/

mutual

theorem stringify_render (v : JsValue) :
    isJsonRep v = true → stringify v = .ok (some (render v)) := by
  intro hrep
  cases v with
  | undef => exact absurd hrep (by decide)
  | func => exact absurd hrep (by decide)
  | symbol => exact absurd hrep (by decide)
  | circular => exact absurd hrep (by decide)
  | jsNull => rfl
  | bool b => cases b <;> rfl
  | num n => rfl
  | str s => rfl
  | arr elems =>
    have h2 := stringifyItems_render elems hrep
    show (match stringifyItems elems with
      | Except.error e => Except.error e
      | Except.ok parts => Except.ok (some ('[' :: (joinComma parts ++ [']'])))) = _
    rw [h2]
    rfl
  | obj fields =>
    have h2 := stringifyFields_render fields hrep
    show (match stringifyFields fields with
      | Except.error e => Except.error e
      | Except.ok parts => Except.ok (some (Char.ofNat 123 :: (joinComma parts ++ [Char.ofNat 125])))) = _
    rw [h2]
    rfl

theorem stringifyItems_render (xs : JsArr) :
    isJsonRepItems xs = true → stringifyItems xs = .ok (renderItems xs) := by
  intro hrep
  cases xs with
  | nil => rw [renderItems_nil]; rfl
  | cons v vs =>
    have hrep2 : isJsonRep v = true ∧ isJsonRepItems vs = true := by
      have hx : isJsonRepItems (JsArr.cons v vs) = true := hrep
      rw [isJsonRepItems] at hx
      simpa using hx
    have h1 := stringify_render v hrep2.1
    have h2 := stringifyItems_render vs hrep2.2
    rw [renderItems_cons]
    show (match stringify v with
      | Except.error e => Except.error e
      | Except.ok sv =>
        match stringifyItems vs with
        | Except.error e => Except.error e
        | Except.ok tail => Except.ok ((sv.getD nullChars) :: tail)) = _
    rw [h1, h2]
    rfl

theorem stringifyFields_render (fs : JsObj) :
    isJsonRepFields fs = true → stringifyFields fs = .ok (renderFields fs) := by
  intro hrep
  cases fs with
  | nil => rw [renderFields_nil]; rfl
  | cons k v vs =>
    have hrep2 : isJsonRep v = true ∧ isJsonRepFields vs = true := by
      have hx : isJsonRepFields (JsObj.cons k v vs) = true := hrep
      rw [isJsonRepFields] at hx
      simpa using hx
    have h1 := stringify_render v hrep2.1
    have h2 := stringifyFields_render vs hrep2.2
    rw [renderFields_cons]
    show (match stringify v with
      | Except.error e => Except.error e
      | Except.ok sv =>
        match stringifyFields vs with
        | Except.error e => Except.error e
        | Except.ok tail =>
          match sv with
          | none => Except.ok tail
          | some sv => Except.ok ((quoteChars k.data ++ ':' :: sv) :: tail)) = _
    rw [h1, h2]

end

/-- The serialization round-trip law:
`JSON.parse(decodeURIComponent(encodeURIComponent(JSON.stringify(v))))`
recovers every JSON-representable `v`. -/
theorem decodeText_encodeText {v : JsValue} (hrep : isJsonRep v = true) :
    ∃ s, encodeText v = .ok s ∧ decodeText s = .ok v := by
  refine ⟨String.mk (pctEncode (render v)), ?_, ?_⟩
  · unfold encodeText
    rw [stringify_render v hrep]
  · unfold decodeText
    show (match pctDecode (pctEncode (render v)) with
      | none => Except.error ("URI malformed")
      | some chars =>
        match jsonParse (String.mk chars) with
        | none => Except.error ("Unexpected token in JSON")
        | some pv => Except.ok pv) = _
    rw [pctDecode_pctEncode]
    simp only []
    rw [jsonParse_render hrep]

/-! `JSON.stringify` throws exactly on values containing a circular
reference. -/

theorem stringify_arr_eq (elems : JsArr) :
    stringify (.arr elems) =
      match stringifyItems elems with
      | Except.error e => Except.error e
      | Except.ok parts => Except.ok (some ('[' :: (joinComma parts ++ [']']))) := rfl

theorem stringify_obj_eq (fields : JsObj) :
    stringify (.obj fields) =
      match stringifyFields fields with
      | Except.error e => Except.error e
      | Except.ok parts =>
        Except.ok (some (Char.ofNat 123 :: (joinComma parts ++ [Char.ofNat 125]))) := rfl

theorem stringifyItems_cons_eq (v : JsValue) (vs : JsArr) :
    stringifyItems (.cons v vs) =
      match stringify v with
      | Except.error e => Except.error e
      | Except.ok sv =>
        match stringifyItems vs with
        | Except.error e => Except.error e
        | Except.ok tail => Except.ok ((sv.getD nullChars) :: tail) := rfl

theorem stringifyFields_cons_eq (k : String) (v : JsValue) (vs : JsObj) :
    stringifyFields (.cons k v vs) =
      match stringify v with
      | Except.error e => Except.error e
      | Except.ok sv =>
        match stringifyFields vs with
        | Except.error e => Except.error e
        | Except.ok tail =>
          match sv with
          | none => Except.ok tail
          | some sv => Except.ok ((quoteChars k.data ++ ':' :: sv) :: tail) := rfl

mutual

theorem stringify_circ (v : JsValue) :
    (hasCirc v = true → stringify v = .error ("Converting circular structure to JSON")) ∧
    (hasCirc v = false → ∃ os, stringify v = .ok os) := by
  cases v with
  | undef => exact ⟨fun h => absurd h (by decide), fun _ => ⟨none, rfl⟩⟩
  | func => exact ⟨fun h => absurd h (by decide), fun _ => ⟨none, rfl⟩⟩
  | symbol => exact ⟨fun h => absurd h (by decide), fun _ => ⟨none, rfl⟩⟩
  | jsNull => exact ⟨fun h => absurd h (by decide), fun _ => ⟨_, rfl⟩⟩
  | bool b =>
    cases b with
    | true => exact ⟨fun h => (Bool.false_ne_true h).elim, fun _ => ⟨_, rfl⟩⟩
    | false => exact ⟨fun h => (Bool.false_ne_true h).elim, fun _ => ⟨_, rfl⟩⟩
  | num n => exact ⟨fun h => (Bool.false_ne_true h).elim, fun _ => ⟨_, rfl⟩⟩
  | str s => exact ⟨fun h => (Bool.false_ne_true h).elim, fun _ => ⟨_, rfl⟩⟩
  | circular => exact ⟨fun _ => rfl, fun h => absurd h (by decide)⟩
  | arr elems =>
    have hitems := stringifyItems_circ elems
    constructor
    · intro h
      rw [stringify_arr_eq, hitems.1 h]
    · intro h
      obtain ⟨parts, hp⟩ := hitems.2 h
      exact ⟨some ('[' :: (joinComma parts ++ [']'])), by rw [stringify_arr_eq, hp]⟩
  | obj fields =>
    have hfields := stringifyFields_circ fields
    constructor
    · intro h
      rw [stringify_obj_eq, hfields.1 h]
    · intro h
      obtain ⟨parts, hp⟩ := hfields.2 h
      exact ⟨some (Char.ofNat 123 :: (joinComma parts ++ [Char.ofNat 125])),
        by rw [stringify_obj_eq, hp]⟩

theorem stringifyItems_circ (xs : JsArr) :
    (hasCircItems xs = true →
      stringifyItems xs = .error ("Converting circular structure to JSON")) ∧
    (hasCircItems xs = false → ∃ parts, stringifyItems xs = .ok parts) := by
  cases xs with
  | nil => exact ⟨fun h => absurd h (by decide), fun _ => ⟨[], rfl⟩⟩
  | cons v vs =>
    have hv := stringify_circ v
    have hvs := stringifyItems_circ vs
    constructor
    · intro h
      have hx : (hasCirc v || hasCircItems vs) = true := h
      by_cases hcv : hasCirc v = true
      · rw [stringifyItems_cons_eq, hv.1 hcv]
      · have hcv2 : hasCirc v = false := by simpa using hcv
        have hvs2 : hasCircItems vs = true := by
          rcases Bool.or_eq_true_iff.mp hx with h1 | h1
          · exact absurd h1 hcv
          · exact h1
        obtain ⟨os, hos⟩ := hv.2 hcv2
        rw [stringifyItems_cons_eq, hos, hvs.1 hvs2]
    · intro h
      have hx : (hasCirc v || hasCircItems vs) = false := h
      rw [Bool.or_eq_false_iff] at hx
      obtain ⟨os, hos⟩ := hv.2 hx.1
      obtain ⟨tail, ht⟩ := hvs.2 hx.2
      exact ⟨(os.getD nullChars) :: tail, by rw [stringifyItems_cons_eq, hos, ht]⟩

theorem stringifyFields_circ (fs : JsObj) :
    (hasCircFields fs = true →
      stringifyFields fs = .error ("Converting circular structure to JSON")) ∧
    (hasCircFields fs = false → ∃ parts, stringifyFields fs = .ok parts) := by
  cases fs with
  | nil => exact ⟨fun h => absurd h (by decide), fun _ => ⟨[], rfl⟩⟩
  | cons k v vs =>
    have hv := stringify_circ v
    have hvs := stringifyFields_circ vs
    constructor
    · intro h
      have hx : (hasCirc v || hasCircFields vs) = true := h
      by_cases hcv : hasCirc v = true
      · rw [stringifyFields_cons_eq, hv.1 hcv]
      · have hcv2 : hasCirc v = false := by simpa using hcv
        have hvs2 : hasCircFields vs = true := by
          rcases Bool.or_eq_true_iff.mp hx with h1 | h1
          · exact absurd h1 hcv
          · exact h1
        obtain ⟨os, hos⟩ := hv.2 hcv2
        rw [stringifyFields_cons_eq, hos, hvs.1 hvs2]
    · intro h
      have hx : (hasCirc v || hasCircFields vs) = false := h
      rw [Bool.or_eq_false_iff] at hx
      obtain ⟨os, hos⟩ := hv.2 hx.1
      obtain ⟨tail, ht⟩ := hvs.2 hx.2
      cases os with
      | none => exact ⟨tail, by rw [stringifyFields_cons_eq, hos, ht]⟩
      | some sv => exact ⟨(quoteChars k.data ++ ':' :: sv) :: tail,
          by rw [stringifyFields_cons_eq, hos, ht]⟩

end

theorem encodeText_circ {v : JsValue} (h : hasCirc v = true) :
    encodeText v = .error ("Converting circular structure to JSON") := by
  unfold encodeText
  rw [(stringify_circ v).1 h]

theorem encodeText_ok {v : JsValue} (h : hasCirc v = false) :
    ∃ s, encodeText v = .ok s := by
  obtain ⟨os, hos⟩ := (stringify_circ v).2 h
  cases os with
  | none => exact ⟨_, by unfold encodeText; rw [hos]⟩
  | some chars => exact ⟨_, by unfold encodeText; rw [hos]⟩

/-! Engine-level lemmas. -/

theorem string_append_assoc (a b c : String) : (a ++ b) ++ c = a ++ (b ++ c) := by
  cases a with
  | mk da =>
    cases b with
    | mk db =>
      cases c with
      | mk dc =>
        show String.mk ((da ++ db) ++ dc) = String.mk (da ++ (db ++ dc))
        rw [List.append_assoc]

theorem string_append_empty (s : String) : s ++ ("") = s := by
  cases s with
  | mk data =>
    show String.mk (data ++ []) = String.mk data
    rw [List.append_nil]

theorem getInitialValueE_ok (name : String) (d : JsValue) (doc : Option String) :
    ∃ v, getInitialValueE name d doc = .ok v := by
  simp only [getInitialValueE]
  split
  · exact ⟨_, rfl⟩
  · exact ⟨_, rfl⟩

theorem initializeE_isOk (name : String) (d : JsValue) (doc : Option String) :
    (initializeE name d doc).isOk = true := by
  obtain ⟨v, hv⟩ := getInitialValueE_ok name d doc
  simp only [initializeE, hv]
  rfl

theorem getValueE_isOk (name : String) (d : JsValue) (doc : Option String) (s : HookState) :
    (getValueE name d doc s).isOk = true := by
  simp only [getValueE]
  split <;> rfl

theorem setCookieValueE_isOk (name : String) (d : JsValue) (opts : CookieOptions)
    (env : JsEnv) (arg : SetArg) (s : HookState) :
    (setCookieValueE name d opts env arg s).isOk = true := by
  simp only [setCookieValueE]
  split <;> rfl

theorem deleteCookieValueE_isOk (name : String) (d : JsValue) (opts : CookieOptions)
    (env : JsEnv) (s : HookState) :
    (deleteCookieValueE name d opts env s).isOk = true := rfl

/-! The claims. -/

/-- C1: for every JSON-representable value `v`, decoding the encoded
form returns `v`: with `encode = encodeURIComponent ∘ JSON.stringify`
and `decode = JSON.parse ∘ decodeURIComponent`,
`decode (encode v) = v`. -/
theorem claim_c1_round_trip (v : JsValue) (hrep : isJsonRep v = true) :
    ∃ s, encodeText v = .ok s ∧ decodeText s = .ok v :=
  decodeText_encodeText hrep

/-- C1 witness: the round trip at the concrete value
`{"theme":"light","n":-3}`. -/
theorem claim_c1_round_trip_witness :
    ∃ s, encodeText (JsValue.obj (.cons ("theme") (.str ("light"))
        (.cons ("n") (.num (-3)) .nil))) = .ok s ∧
      decodeText s = .ok (JsValue.obj (.cons ("theme") (.str ("light"))
        (.cons ("n") (.num (-3)) .nil))) :=
  claim_c1_round_trip _ (by decide)

/-- C2 counterexample: a function value is not JSON-representable, yet
the encode step does not fail: `JSON.stringify` yields `undefined` and
`encodeURIComponent` coerces it to the text payload `undefined`. -/
theorem claim_c2_counterexample :
    isJsonRep JsValue.func = false ∧ encodeText JsValue.func = .ok ("undefined") :=
  ⟨rfl, rfl⟩

/-- C2 amended: the encode step fails only for values containing a
circular reference; a top-level function or symbol instead produces the
text payload `undefined`, a function in an array is coerced to `null`,
and a function-valued object property is silently omitted. -/
theorem claim_c2_encode_amended :
    (∀ v : JsValue, hasCirc v = true →
      encodeText v = .error ("Converting circular structure to JSON")) ∧
    (∀ v : JsValue, hasCirc v = false → ∃ s, encodeText v = .ok s) ∧
    encodeText JsValue.func = .ok ("undefined") ∧
    encodeText JsValue.symbol = .ok ("undefined") ∧
    encodeText (JsValue.arr (.cons .func .nil)) = .ok ("%5Bnull%5D") ∧
    encodeText (JsValue.obj (.cons ("f") .func .nil)) = .ok ("%7B%7D") :=
  ⟨fun _ h => encodeText_circ h, fun _ h => encodeText_ok h, rfl, rfl, rfl, rfl⟩

/-- C2 amended witness: the two quantified parts at concrete values. -/
theorem claim_c2_encode_amended_witness :
    encodeText (JsValue.arr (.cons .circular .nil)) =
      .error ("Converting circular structure to JSON") ∧
    ∃ s, encodeText (JsValue.num 7) = .ok s :=
  ⟨claim_c2_encode_amended.1 _ rfl, claim_c2_encode_amended.2.1 _ rfl⟩

/-- C3: when the update function's result fails the encode step, `Set`
sets the error state with the thrown message, performs no write, and
leaves the reactive value unchanged. -/
theorem claim_c3_encode_failure (name : String) (d : JsValue) (opts : CookieOptions)
    (env : JsEnv) (f : JsValue → JsValue) (s : HookState) (e : String)
    (henc : encodeText (f (if truthy s.value then s.value else d)) = .error e) :
    setCookieValueE name d opts env (.fn f) s =
      .ok { written := none,
            state := { value := s.value, error := true, errorMessage := some e } } := by
  simp only [setCookieValueE]
  by_cases hres : f (if truthy s.value then s.value else d) = JsValue.undef
  · rw [hres] at henc
    have hok : encodeText JsValue.undef = Except.ok (String.mk (pctEncode ("undefined").data)) :=
      rfl
    rw [hok] at henc
    exact Except.noConfusion henc
  · rw [if_neg hres, henc]
    rfl

/-- C3 witness: an update returning a circular value at a concrete
state. -/
theorem claim_c3_encode_failure_witness :
    setCookieValueE ("k") (.num 0)
      { days := none, domain := some (".x.test"), path := none, secure := none, sameSite := none }
      { doc := some (""), httpsProtocol := false, nowMs := 0 }
      (.fn (fun _ => .circular))
      { value := .num 7, error := false, errorMessage := none } =
      .ok { written := none,
            state := { value := .num 7, error := true,
                       errorMessage := some ("Converting circular structure to JSON") } } :=
  claim_c3_encode_failure _ _ _ _ _ _ _ rfl

/-- C4: none of the four public operations lets an exception escape to
the caller: each always returns an `Except.ok` result, for every input
and state. -/
theorem claim_c4_no_exception (name : String) (d : JsValue) (doc : Option String)
    (opts : CookieOptions) (env : JsEnv) (arg : SetArg) (s : HookState) :
    (initializeE name d doc).isOk = true ∧
    (getValueE name d doc s).isOk = true ∧
    (setCookieValueE name d opts env arg s).isOk = true ∧
    (deleteCookieValueE name d opts env s).isOk = true :=
  ⟨initializeE_isOk name d doc, getValueE_isOk name d doc s,
    setCookieValueE_isOk name d opts env arg s, deleteCookieValueE_isOk name d opts env s⟩

/-- C5: a non-function argument to `Set` is rejected: no write, the
reactive value unchanged (only the error state is cleared, as the reset
precedes the check). -/
theorem claim_c5_reject_nonfunction (name : String) (d : JsValue) (opts : CookieOptions)
    (env : JsEnv) (x : JsValue) (s : HookState) :
    setCookieValueE name d opts env (.notFn x) s =
      .ok { written := none,
            state := { value := s.value, error := false, errorMessage := none } } := rfl

/-- C6: the previous value passed to the update function is the live
reactive value when truthy and the default otherwise; from an absent
slot, `Set(prev => prev + 1)` yields 6 with default 5 and 1 with
default 0. -/
theorem claim_c6_prev_fallback :
    (∀ (name : String) (d : JsValue) (opts : CookieOptions) (env : JsEnv)
      (f : JsValue → JsValue) (s : HookState),
      setCookieValueE name d opts env (.fn f) s =
        setCookieValueE name d opts env
          (.fn (fun _ => f (if truthy s.value then s.value else d))) s) ∧
    initializeE ("count") (.num 5) (some ("")) =
      .ok { value := .num 5, error := false, errorMessage := none } ∧
    (setCookieValueE ("count") (.num 5)
      { days := none, domain := some (".x.test"), path := none, secure := none, sameSite := none }
      { doc := some (""), httpsProtocol := false, nowMs := 0 }
      (.fn jsInc)
      { value := .num 5, error := false, errorMessage := none }).map
        (fun r => r.state.value) = .ok (.num 6) ∧
    initializeE ("count") (.num 0) (some ("")) =
      .ok { value := .num 0, error := false, errorMessage := none } ∧
    (setCookieValueE ("count") (.num 0)
      { days := none, domain := some (".x.test"), path := none, secure := none, sameSite := none }
      { doc := some (""), httpsProtocol := false, nowMs := 0 }
      (.fn jsInc)
      { value := .num 0, error := false, errorMessage := none }).map
        (fun r => r.state.value) = .ok (.num 1) :=
  ⟨fun _ _ _ _ _ _ => rfl, rfl, rfl, rfl, rfl⟩

/-- C7: after `Initialize` with a slot whose text fails to decode, the
reactive value is the default and the error state stays clear. -/
theorem claim_c7_initialize_silent (name : String) (d : JsValue) (doc : Option String)
    (cv : String) (e : String) (hcv : getCookie doc name = some cv)
    (hd : decodeText cv = .error e) :
    initializeE name d doc = .ok { value := d, error := false, errorMessage := none } := by
  simp only [initializeE, getInitialValueE, hcv, hd]

/-- C7 witness: a slot holding malformed percent-encoding. -/
theorem claim_c7_initialize_silent_witness :
    initializeE ("k") (.num 0) (some ("k=%zz")) =
      .ok { value := .num 0, error := false, errorMessage := none } :=
  claim_c7_initialize_silent ("k") (.num 0) (some ("k=%zz")) ("%zz") ("URI malformed") rfl rfl

/-- C8: `Get` never mutates the reactive value; a well-formed slot is
returned decoded without being written back, and a malformed slot
returns the default with the error state set to a non-null message. -/
theorem claim_c8_get_peek (name : String) (d : JsValue) (doc : Option String) (s : HookState) :
    (∀ r s2, getValueE name d doc s = .ok (r, s2) → s2.value = s.value) ∧
    (∀ cv v, getCookie doc name = some cv → decodeText cv = .ok v →
      getValueE name d doc s =
        .ok (v, { value := s.value, error := false, errorMessage := none })) ∧
    (∀ cv e, getCookie doc name = some cv → decodeText cv = .error e →
      getValueE name d doc s =
        .ok (d, { value := s.value, error := true, errorMessage := some e })) := by
  refine ⟨?_, ?_, ?_⟩
  · intro r s2 h
    simp only [getValueE] at h
    split at h
    · rename_i heq
      split at heq
      · cases heq
        cases h
        rfl
      · split at heq
        · cases heq
          cases h
          rfl
        · cases heq
    · rename_i heq
      split at heq
      · cases heq
      · split at heq
        · cases heq
        · cases heq
          cases h
          rfl
  · intro cv v hcv hd
    simp only [getValueE, hcv, hd]
    rfl
  · intro cv e hcv hd
    simp only [getValueE, hcv, hd]
    rfl

/-- C8 witness: the malformed clause at the slot text `%zz` and a
concrete prior state. -/
theorem claim_c8_get_peek_witness :
    getValueE ("cart") (.arr .nil) (some ("cart=%zz"))
      { value := .str ("stale"), error := false, errorMessage := none } =
      .ok (.arr .nil, { value := .str ("stale"), error := true,
                        errorMessage := some ("URI malformed") }) :=
  (claim_c8_get_peek ("cart") (.arr .nil) (some ("cart=%zz"))
    { value := .str ("stale"), error := false, errorMessage := none }).2.2
    ("%zz") ("URI malformed") rfl rfl

/-- C10: the adapter read never returns the empty string — an entry
with empty text (as written by a delete) reads as absent, whether or
not other entries follow it. -/
theorem claim_c10_empty_reads_absent :
    (∀ (doc : Option String) (name : String), readNonEmpty (getCookie doc name) = true) ∧
    getCookie (some ("user=; b=1")) ("user") = none ∧
    getCookie (some ("b=1; user=")) ("user") = none := by
  refine ⟨?_, rfl, rfl⟩
  intro doc name
  unfold getCookie
  cases doc with
  | none => rfl
  | some dc =>
    simp only []
    split
    · split
      · rfl
      · split
        · rfl
        · split
          · rfl
          · rename_i first restx hne
            split
            · rfl
            · rename_i hfirst
              simp only [readNonEmpty, ne_eq, decide_eq_true_eq]
              intro h
              apply hfirst
              rw [show ("" : String) = String.mk [] from rfl] at h
              injection h
    · rfl

/-- C9: every composed cookie write string is exactly the
specification's wire format: `name=<value>; expires=<ts>; path=<path>;
SameSite=<ss>`, then `; domain=<d>` only for a truthy supplied domain,
then `; Secure` only when the secure flag applies, in that order. -/
theorem claim_c9_wire_format (name value : String) (opts : CookieOptions) (env : JsEnv)
    (dc : String) (hdoc : env.doc = some dc) :
    setCookie name value opts env =
      some (cookieWireFormat name value
        (toUTCString (env.nowMs + (opts.days.getD 365) * 86400000))
        (opts.path.getD ("/")) (opts.sameSite.getD ("Lax"))
        (match opts.domain with
         | some d => if d = ("") then none else some d
         | none => none)
        (opts.secure.getD env.httpsProtocol)) := by
  simp only [setCookie, cookieWireFormat, hdoc]
  cases hdom : opts.domain with
  | none =>
    simp only []
    cases hsec : opts.secure.getD env.httpsProtocol <;>
      simp [string_append_empty, string_append_assoc]
  | some d =>
    simp only []
    by_cases hd : d = ("") <;>
      cases hsec : opts.secure.getD env.httpsProtocol <;>
        simp [hd, string_append_empty, string_append_assoc]

/-- C9 witness: a write with domain and secure flag supplied. -/
theorem claim_c9_wire_format_witness :
    setCookie ("sess") ("abc")
      { days := some 7, domain := some (".x.test"), path := none, secure := some true,
        sameSite := none }
      { doc := some (""), httpsProtocol := false, nowMs := 0 } =
      some (cookieWireFormat ("sess") ("abc") (toUTCString (0 + 7 * 86400000)) ("/") ("Lax")
        (some (".x.test")) true) :=
  claim_c9_wire_format ("sess") ("abc") _ _ ("") rfl

end CookieState
